import Mathlib

/-!
Shallow embedding of the assignment-and-cost engine of this repository:
the cost calculator helpers, the assignment routes (create / update /
bulk-create), the crew-availability query and the cost-center report.
Numbers that are JavaScript floats in the source are modelled as `ℚ`
(all arithmetic in the relevant code paths is exact on the inputs the
store produces); a JavaScript `NaN` intermediate is modelled as `none`
in an `Option ℚ`. String processing is modelled structurally on the
character list of the string.
-/

/-- Dynamic (JavaScript) values as they arrive in a row or request body:
`null`, a number, or a string. -/
inductive JVal where
  | jnull : JVal
  | jnum : ℚ → JVal
  | jstr : String → JVal
deriving DecidableEq, Repr

/-- Numeric value of a list of decimal digit characters (most significant
first). -/
def natOfDigits (l : List Char) : ℕ :=
  l.foldl (fun a c => a * 10 + (c.toNat - 48)) 0

/-- Fractional value of the digit list after a decimal point. -/
def fracOfDigits (l : List Char) : ℚ :=
  l.foldr (fun c a => (((c.toNat - 48 : ℕ) : ℚ) + a) / 10) 0

/-- Strip leading and trailing whitespace from a character list. -/
def wsTrim (l : List Char) : List Char :=
  ((l.dropWhile Char.isWhitespace).reverse.dropWhile Char.isWhitespace).reverse

/-- JavaScript `s.split(sep)` on the characters of `s`: the empty string
splits to one empty field. -/
def splitOnChar (sep : Char) : List Char → List (List Char)
  | [] => [[]]
  | c :: rest =>
    let r := splitOnChar sep rest
    if c = sep then [] :: r
    else
      match r with
      | [] => [[c]]
      | h :: t => (c :: h) :: t

/-- Unsigned decimal parse of `parseFloat`: longest prefix of the form
`digits [ . digits ]`; `none` models `NaN`. -/
def parseFloatCore (cs : List Char) : Option ℚ :=
  let intPart := cs.takeWhile (·.isDigit)
  let rest := cs.dropWhile (·.isDigit)
  match rest with
  | '.' :: frac =>
      let fracPart := frac.takeWhile (·.isDigit)
      if intPart.isEmpty && fracPart.isEmpty then none
      else some ((natOfDigits intPart : ℚ) + fracOfDigits fracPart)
  | _ => if intPart.isEmpty then none else some ((natOfDigits intPart : ℚ))

/-- JavaScript `parseFloat` on a string: skip leading whitespace, optional
sign, then the longest numeric prefix; `none` models `NaN`. -/
def parseFloatStr (s : String) : Option ℚ :=
  match s.toList.dropWhile Char.isWhitespace with
  | '+' :: rest => parseFloatCore rest
  | '-' :: rest => (parseFloatCore rest).map Neg.neg
  | cs => parseFloatCore cs

/-- Unsigned digit-prefix parse of `parseInt` (base 10). -/
def parseIntCore (cs : List Char) : Option ℤ :=
  let d := cs.takeWhile (·.isDigit)
  if d.isEmpty then none else some ((natOfDigits d : ℤ))

/-- JavaScript `parseInt` on a string; `none` models `NaN`. -/
def parseIntStr (s : String) : Option ℤ :=
  match s.toList.dropWhile Char.isWhitespace with
  | '+' :: rest => parseIntCore rest
  | '-' :: rest => (parseIntCore rest).map Neg.neg
  | cs => parseIntCore cs

/-- Truncation toward zero, the effect of `parseInt` on a finite number. -/
def ratTrunc (q : ℚ) : ℤ :=
  q.num.tdiv q.den

/-- JavaScript `Number` on a character list: the whole (trimmed) list must
be numeric; the empty string coerces to `0`; `none` models `NaN`. -/
def jsNumberChars (l : List Char) : Option ℚ :=
  let core : List Char → Option ℚ := fun cs =>
    let intPart := cs.takeWhile (·.isDigit)
    let rest := cs.dropWhile (·.isDigit)
    match rest with
    | [] => if intPart.isEmpty then none else some ((natOfDigits intPart : ℚ))
    | '.' :: frac =>
        if frac.all (·.isDigit) && (!intPart.isEmpty || !frac.isEmpty) then
          some ((natOfDigits intPart : ℚ) + fracOfDigits frac)
        else none
    | _ => none
  match wsTrim l with
  | [] => some 0
  | '+' :: rest => core rest
  | '-' :: rest => (core rest).map Neg.neg
  | cs => core cs

/-- `parseFloat` applied to a dynamic value (the argument is coerced to a
string first; `parseFloat(null)` is `NaN`). -/
def parseFloatJ : JVal → Option ℚ
  | JVal.jnull => none
  | JVal.jnum q => some q
  | JVal.jstr s => parseFloatStr s

/-- `parseInt` applied to a dynamic value. -/
def parseIntJ : JVal → Option ℤ
  | JVal.jnull => none
  | JVal.jnum q => some (ratTrunc q)
  | JVal.jstr s => parseIntStr s

/-- JavaScript `x || d` after a numeric parse: `NaN` (here `none`) and `0`
are falsy and replaced by the default. -/
def jsOrQ (d : ℚ) : Option ℚ → ℚ
  | none => d
  | some q => if q = 0 then d else q

/-- JavaScript `x || d` for integer parses. -/
def jsOrZ (d : ℤ) : Option ℤ → ℤ
  | none => d
  | some z => if z = 0 then d else z

/-- Truthiness of a nullable string column (`null` and the empty string are
falsy). -/
def strTruthy : Option String → Bool
  | none => false
  | some s => !(s == (""))

/-- `t.split(':').map(Number)` followed by reading entries `0` and `1`:
hour and minute of a clock-time string; `none` models a `NaN`/`undefined`
component. -/
def timeHM (s : String) : Option (ℚ × ℚ) := do
  let parts := splitOnChar ':' s.toList
  let h ← jsNumberChars (← parts.get? 0)
  let m ← jsNumberChars (← parts.get? 1)
  pure (h, m)

/-- Input row of `calculateCrewCost`: the fields the helper reads. `rate`
is the `COALESCE`-derived effective rate column of the SELECT. -/
structure RawCrew where
  rate : JVal
  call_time : Option String
  end_time : Option String
deriving DecidableEq, Repr

/-- Input row of `calculateEquipmentCost`. -/
structure RawEquip where
  rate : JVal
  quantity : JVal
deriving DecidableEq, Repr

/-- `calculateCrewCost` of the report router: rate times elapsed hours,
8 hours when either clock time is absent, `+24` on a negative difference
(overnight shift). `none` models a `NaN` result on malformed times. -/
def calculateCrewCost (a : RawCrew) : Option ℚ :=
  let rate := jsOrQ 0 (parseFloatJ a.rate)
  if strTruthy a.call_time && strTruthy a.end_time then
    match timeHM (a.call_time.getD ("")), timeHM (a.end_time.getD ("")) with
    | some s, some e =>
        let hours := (e.1 + e.2 / 60) - (s.1 + s.2 / 60)
        let hours := if hours < 0 then hours + 24 else hours
        some (rate * hours)
    | _, _ => none
  else
    some (rate * 8)

/-- `calculateEquipmentCost` of the report router: rate times quantity,
with `parseFloat(rate) || 0` and `parseInt(quantity) || 1` defaults. -/
def calculateEquipmentCost (a : RawEquip) : ℚ :=
  let rate := jsOrQ 0 (parseFloatJ a.rate)
  let quantity := jsOrZ 1 (parseIntJ a.quantity)
  rate * (quantity : ℚ)

/-- Evaluation of the hour/minute scan on a concrete clock string. -/
theorem timeHM_2200 : timeHM ("22:00") = some (22, 0) := by
  have h0 : splitOnChar ':' (("22:00").toList) = [['2', '2'], ['0', '0']] := by decide
  have h1 : jsNumberChars (['2', '2']) = some ((22 : ℕ) : ℚ) := by
    have hw : wsTrim (['2', '2']) = ['2', '2'] := by decide
    simp [jsNumberChars, hw, natOfDigits]
  have h2 : jsNumberChars (['0', '0']) = some ((0 : ℕ) : ℚ) := by
    have hw : wsTrim (['0', '0']) = ['0', '0'] := by decide
    simp [jsNumberChars, hw, natOfDigits]
  rw [timeHM, h0]
  simp [h1, h2]

/-- Evaluation of the hour/minute scan on a concrete clock string. -/
theorem timeHM_0200 : timeHM ("02:00") = some (2, 0) := by
  have h0 : splitOnChar ':' (("02:00").toList) = [['0', '2'], ['0', '0']] := by decide
  have h1 : jsNumberChars (['0', '2']) = some ((2 : ℕ) : ℚ) := by
    have hw : wsTrim (['0', '2']) = ['0', '2'] := by decide
    simp [jsNumberChars, hw, natOfDigits]
  have h2 : jsNumberChars (['0', '0']) = some ((0 : ℕ) : ℚ) := by
    have hw : wsTrim (['0', '0']) = ['0', '0'] := by decide
    simp [jsNumberChars, hw, natOfDigits]
  rw [timeHM, h0]
  simp [h1, h2]

example : calculateCrewCost ⟨JVal.jnum 50, some ("22:00"), some ("02:00")⟩ = some 200 := by
  rw [calculateCrewCost]
  have ht : (strTruthy (some ("22:00")) && strTruthy (some ("02:00"))) = true := by decide
  rw [ht]
  simp only [Option.getD, if_true]
  rw [timeHM_2200, timeHM_0200]
  norm_num [parseFloatJ, jsOrQ]

example : calculateCrewCost ⟨JVal.jnum 50, none, none⟩ = some 400 := by
  norm_num [calculateCrewCost, strTruthy, parseFloatJ, jsOrQ]

example : calculateEquipmentCost ⟨JVal.jnum 25, JVal.jnum 3⟩ = 75 := by
  norm_num [calculateEquipmentCost, parseFloatJ, parseIntJ, jsOrQ, jsOrZ, ratTrunc]

example : calculateEquipmentCost ⟨JVal.jnum 25, JVal.jnull⟩ = 25 := by
  norm_num [calculateEquipmentCost, parseFloatJ, parseIntJ, jsOrQ, jsOrZ]

/-! ## Data model: the tables the assignment engine touches -/

/-- A row of the `events` table (the columns the engine reads). Dates are
modelled as day ordinals. -/
structure Event where
  id : ℕ
  name : String
  event_date : ℕ
  cost_center : Option String
  status : String
deriving DecidableEq, Repr

/-- A row of `crew_members`. -/
structure CrewMember where
  id : ℕ
  name : String
  hourly_rate : Option ℚ
  is_active : Bool
deriving DecidableEq, Repr

/-- A row of `positions`. -/
structure Position where
  id : ℕ
  name : String
deriving DecidableEq, Repr

/-- A row of `equipment`. -/
structure Equipment where
  id : ℕ
  name : String
  daily_rate : Option ℚ
  is_active : Bool
deriving DecidableEq, Repr

/-- A row of `crew_assignments`. `status` defaults to `pending` on insert. -/
structure CrewAssignment where
  id : ℕ
  event_id : ℕ
  crew_member_id : ℕ
  position_id : Option ℕ
  call_time : Option String
  end_time : Option String
  rate_override : Option ℚ
  status : Option String
  notes : Option String
  created_by : ℕ
deriving DecidableEq, Repr

/-- A row of `equipment_assignments`. -/
structure EquipmentAssignment where
  id : ℕ
  event_id : ℕ
  equipment_id : ℕ
  quantity : ℤ
  rate_override : Option ℚ
  notes : Option String
  created_by : ℕ
deriving DecidableEq, Repr

/-- The persistent store: the five tables the engine reads or writes. -/
structure Store where
  events : List Event
  crew_members : List CrewMember
  positions : List Position
  equipment : List Equipment
  crew_assignments : List CrewAssignment
  equipment_assignments : List EquipmentAssignment
deriving DecidableEq, Repr

/-! ## Store-level insert with the schema's constraints

`migrate.js` declares `UNIQUE(event_id, crew_member_id)` on
`crew_assignments` and `UNIQUE(event_id, equipment_id)` on
`equipment_assignments`, plus foreign keys to `events`, `crew_members`,
`positions` and `equipment`. The store surfaces a unique violation
(Postgres code 23505) or a foreign-key violation on insert. -/

/-- Error raised by the store on a failed insert. -/
inductive DbError where
  | uniqueViolation : DbError
  | fkViolation : DbError
deriving DecidableEq, Repr

/-- The `error.message` text the route collects in a bulk error list. -/
def dbErrMessage : DbError → String
  | DbError.uniqueViolation => "duplicate key value violates unique constraint"
  | DbError.fkViolation => "insert or update violates foreign key constraint"

/-- Does some crew assignment already occupy the (event, crew member)
pair? -/
def pairExistsCrew (s : Store) (eid cid : ℕ) : Bool :=
  s.crew_assignments.any (fun ca => ca.event_id == eid && ca.crew_member_id == cid)

/-- Does some equipment assignment already occupy the (event, equipment)
pair? -/
def pairExistsEquip (s : Store) (eid qid : ℕ) : Bool :=
  s.equipment_assignments.any (fun ea => ea.event_id == eid && ea.equipment_id == qid)

/-- Foreign keys of a crew-assignment row (`created_by` references `users`,
which the routes always supply from the authenticated actor and is not
modelled). -/
def crewRefsOk (s : Store) (row : CrewAssignment) : Bool :=
  s.events.any (fun e => e.id == row.event_id) &&
  s.crew_members.any (fun cm => cm.id == row.crew_member_id) &&
  (match row.position_id with
   | none => true
   | some p => s.positions.any (fun q => q.id == p))

/-- Foreign keys of an equipment-assignment row. -/
def equipRefsOk (s : Store) (row : EquipmentAssignment) : Bool :=
  s.events.any (fun e => e.id == row.event_id) &&
  s.equipment.any (fun q => q.id == row.equipment_id)

/-- Store insert of a crew assignment. With `onConflictDoNothing` set
(the bulk route's `ON CONFLICT (event_id, crew_member_id) DO NOTHING`)
a duplicate pair is dropped without error and without further checks;
otherwise it raises the unique violation. -/
def dbInsertCrewAssignment (s : Store) (row : CrewAssignment)
    (onConflictDoNothing : Bool) : Except DbError Store :=
  if pairExistsCrew s row.event_id row.crew_member_id then
    if onConflictDoNothing then Except.ok s
    else Except.error DbError.uniqueViolation
  else if !crewRefsOk s row then Except.error DbError.fkViolation
  else Except.ok { s with crew_assignments := s.crew_assignments ++ [row] }

/-- Store insert of an equipment assignment (no conflict clause exists on
this path in the source). -/
def dbInsertEquipmentAssignment (s : Store) (row : EquipmentAssignment) :
    Except DbError Store :=
  if pairExistsEquip s row.event_id row.equipment_id then
    Except.error DbError.uniqueViolation
  else if !equipRefsOk s row then Except.error DbError.fkViolation
  else Except.ok { s with equipment_assignments := s.equipment_assignments ++ [row] }

/-! ## Assignment manager routes -/

/-- Error responses of the routes: 404, 409, 400, and a fall-through to the
generic error handler. -/
inductive ApiError where
  | notFound : ApiError
  | conflict : ApiError
  | badRequest : ApiError
  | internal : ApiError
deriving DecidableEq, Repr

/-- JavaScript `x || null` on a nullable numeric field: `0` is falsy and
becomes `null`. -/
def orNullQ : Option ℚ → Option ℚ
  | some q => if q = 0 then none else some q
  | none => none

/-- JavaScript `x || null` on a nullable string field: the empty string is
falsy and becomes `null`. -/
def orNullS : Option String → Option String
  | some s => if s == ("") then none else some s
  | none => none

/-- A fresh primary key for an inserted crew assignment. -/
def freshCrewAssignmentId (s : Store) : ℕ :=
  (s.crew_assignments.map (fun ca => ca.id)).foldr max 0 + 1

/-- A fresh primary key for an inserted equipment assignment. -/
def freshEquipmentAssignmentId (s : Store) : ℕ :=
  (s.equipment_assignments.map (fun ea => ea.id)).foldr max 0 + 1

/-- Body of `POST /crew` after the validators ran. -/
structure CreateCrewReq where
  event_id : ℕ
  crew_member_id : ℕ
  position_id : Option ℕ
  call_time : Option String
  end_time : Option String
  rate_override : Option ℚ
  notes : Option String
deriving DecidableEq, Repr

/-- The row `POST /crew` inserts (`x || null` defaults as in the source). -/
def mkCrewRow (s : Store) (r : CreateCrewReq) (actor : ℕ) : CrewAssignment :=
  { id := freshCrewAssignmentId s
    event_id := r.event_id
    crew_member_id := r.crew_member_id
    position_id := r.position_id
    call_time := orNullS r.call_time
    end_time := orNullS r.end_time
    rate_override := orNullQ r.rate_override
    status := some ("pending")
    notes := orNullS r.notes
    created_by := actor }

/-- `POST /crew`: 404 when the event is missing, 404 when the crew member
is missing or inactive, 409 when the store raises the unique violation
(error code 23505), otherwise insert and return the new assignment. -/
def createCrewAssignment (s : Store) (r : CreateCrewReq) (actor : ℕ) :
    Except ApiError (Store × CrewAssignment) :=
  if !(s.events.any (fun e => e.id == r.event_id)) then
    Except.error ApiError.notFound
  else if !(s.crew_members.any (fun cm => cm.id == r.crew_member_id && cm.is_active)) then
    Except.error ApiError.notFound
  else
    let row := mkCrewRow s r actor
    match dbInsertCrewAssignment s row false with
    | Except.ok next => Except.ok (next, row)
    | Except.error DbError.uniqueViolation => Except.error ApiError.conflict
    | Except.error DbError.fkViolation => Except.error ApiError.internal

/-- Body of `POST /equipment` after the validators ran. -/
structure CreateEquipReq where
  event_id : ℕ
  equipment_id : ℕ
  quantity : Option ℤ
  rate_override : Option ℚ
  notes : Option String
deriving DecidableEq, Repr

/-- The row `POST /equipment` inserts (`quantity || 1`). -/
def mkEquipRow (s : Store) (r : CreateEquipReq) (actor : ℕ) : EquipmentAssignment :=
  { id := freshEquipmentAssignmentId s
    event_id := r.event_id
    equipment_id := r.equipment_id
    quantity := jsOrZ 1 r.quantity
    rate_override := orNullQ r.rate_override
    notes := orNullS r.notes
    created_by := actor }

/-- `POST /equipment`: mirrors the crew create, with the equipment
exists-and-active check. -/
def createEquipmentAssignment (s : Store) (r : CreateEquipReq) (actor : ℕ) :
    Except ApiError (Store × EquipmentAssignment) :=
  if !(s.events.any (fun e => e.id == r.event_id)) then
    Except.error ApiError.notFound
  else if !(s.equipment.any (fun q => q.id == r.equipment_id && q.is_active)) then
    Except.error ApiError.notFound
  else
    let row := mkEquipRow s r actor
    match dbInsertEquipmentAssignment s row with
    | Except.ok next => Except.ok (next, row)
    | Except.error DbError.uniqueViolation => Except.error ApiError.conflict
    | Except.error DbError.fkViolation => Except.error ApiError.internal

/-! ## Partial update of a crew assignment -/

/-- A supplied value for one updatable column: `null`, the empty string, or
a typed value. -/
inductive FieldPatch (α : Type) where
  | vnull : FieldPatch α
  | vempty : FieldPatch α
  | vval : α → FieldPatch α
deriving DecidableEq, Repr

/-- Body of `PUT /crew/:id`: `none` is a field absent from the payload. -/
structure UpdateCrewReq where
  position_id : Option (FieldPatch ℕ)
  call_time : Option (FieldPatch String)
  end_time : Option (FieldPatch String)
  rate_override : Option (FieldPatch ℚ)
  status : Option (FieldPatch String)
  notes : Option (FieldPatch String)
deriving DecidableEq, Repr

/-- One step of the route's field loop:
`values.push(req.body[field] === '' ? null : req.body[field])` — an
omitted field keeps the stored value, a supplied empty string is
normalized to `null`. -/
def applyPatch {α : Type} (p : Option (FieldPatch α)) (cur : Option α) : Option α :=
  match p with
  | none => cur
  | some FieldPatch.vnull => none
  | some FieldPatch.vempty => none
  | some (FieldPatch.vval a) => some a

/-- Was at least one recognized field supplied? -/
def UpdateCrewReq.hasUpdates (r : UpdateCrewReq) : Bool :=
  r.position_id.isSome || r.call_time.isSome || r.end_time.isSome ||
  r.rate_override.isSome || r.status.isSome || r.notes.isSome

/-- The `SET` clause applied to one row. -/
def applyCrewUpdates (r : UpdateCrewReq) (ca : CrewAssignment) : CrewAssignment :=
  { ca with
    position_id := applyPatch r.position_id ca.position_id
    call_time := applyPatch r.call_time ca.call_time
    end_time := applyPatch r.end_time ca.end_time
    rate_override := applyPatch r.rate_override ca.rate_override
    status := applyPatch r.status ca.status
    notes := applyPatch r.notes ca.notes }

/-- `PUT /crew/:id`: 400 before touching the store when no recognized field
was supplied; otherwise run the UPDATE, and 404 when it matched no row. -/
def updateCrewAssignment (s : Store) (id : ℕ) (r : UpdateCrewReq) :
    Except ApiError (Store × CrewAssignment) :=
  if !r.hasUpdates then Except.error ApiError.badRequest
  else
    match s.crew_assignments.filter (fun ca => ca.id == id) with
    | [] => Except.error ApiError.notFound
    | ca :: _ =>
        let next := { s with crew_assignments :=
          s.crew_assignments.map (fun c => if c.id = id then applyCrewUpdates r c else c) }
        Except.ok (next, applyCrewUpdates r ca)

/-! ## Bulk crew assignment -/

/-- The `results` object of `POST /crew/bulk`. -/
structure BulkResults where
  assigned : ℕ
  skipped : ℕ
  errors : List (ℕ × String)
deriving DecidableEq, Repr

/-- The row one bulk iteration inserts (only event, crew member, position,
call time and actor are supplied). -/
def mkBulkRow (s : Store) (eid cid : ℕ) (pos : Option ℕ) (ct : Option String)
    (actor : ℕ) : CrewAssignment :=
  { id := freshCrewAssignmentId s
    event_id := eid
    crew_member_id := cid
    position_id := pos
    call_time := orNullS ct
    end_time := none
    rate_override := none
    status := some ("pending")
    notes := none
    created_by := actor }

/-- One iteration of the bulk loop: a successful insert (including one
suppressed by the conflict clause) increments `assigned`; a store error is
appended to the per-id error list and the loop continues. -/
def bulkStep (eid : ℕ) (pos : Option ℕ) (ct : Option String) (actor : ℕ)
    (acc : Store × BulkResults) (cid : ℕ) : Store × BulkResults :=
  match dbInsertCrewAssignment acc.1 (mkBulkRow acc.1 eid cid pos ct actor) true with
  | Except.ok next => (next, { acc.2 with assigned := acc.2.assigned + 1 })
  | Except.error e => (acc.1, { acc.2 with errors := acc.2.errors ++ [(cid, dbErrMessage e)] })

/-- `POST /crew/bulk`: iterate the insert over every supplied crew member
id, never aborting the batch. -/
def bulkCreateCrewAssignments (s : Store) (eid : ℕ) (ids : List ℕ)
    (pos : Option ℕ) (ct : Option String) (actor : ℕ) : Store × BulkResults :=
  ids.foldl (bulkStep eid pos ct actor) (s, { assigned := 0, skipped := 0, errors := [] })

/-! ## Effective rate

Every cost-computing SELECT in the report router derives the rate with the
same fallback chain, `COALESCE(assignment.rate_override, resource default
rate, 0)`. -/

/-- `COALESCE(rate_override, default_rate, 0)`. -/
def effectiveRate (rate_override fallback : Option ℚ) : ℚ :=
  rate_override.getD (fallback.getD 0)

/-- Crew cost of the per-event report (`GET /event/:id` and the PDF
export): `calculateCrewCost` applied to the row whose `rate` column is the
`COALESCE` chain over the joined crew member. -/
def eventReportCrewCost (ca : CrewAssignment) (cm : CrewMember) : Option ℚ :=
  calculateCrewCost ⟨JVal.jnum (effectiveRate ca.rate_override cm.hourly_rate),
    ca.call_time, ca.end_time⟩

/-- Equipment cost of the per-event report: `calculateEquipmentCost` on the
joined row. -/
def eventReportEquipmentCost (ea : EquipmentAssignment) (q : Equipment) : ℚ :=
  calculateEquipmentCost ⟨JVal.jnum (effectiveRate ea.rate_override q.daily_rate),
    JVal.jnum ((ea.quantity : ℚ))⟩

/-! ## Crew availability (`GET /availability/crew`) -/

/-- One row of the availability SELECT: the crew member columns plus the
event columns, which are `NULL` when either `LEFT JOIN` found no partner
(no assignment at all, or no event inside the date window). -/
structure AvailRow where
  id : ℕ
  name : String
  event : Option (ℕ × String)
deriving DecidableEq, Repr

/-- The availability join: every active crew member, left-joined to their
assignments, left-joined to events with the date filter
`e.event_date BETWEEN start AND end` inside the join condition. -/
def availJoinRows (s : Store) (sd ed : ℕ) : List AvailRow :=
  (s.crew_members.filter (fun cm => cm.is_active)).flatMap (fun cm =>
    if (s.crew_assignments.filter (fun ca => ca.crew_member_id == cm.id)).isEmpty then
      [⟨cm.id, cm.name, none⟩]
    else
      (s.crew_assignments.filter (fun ca => ca.crew_member_id == cm.id)).flatMap (fun ca =>
        if (s.events.filter (fun e =>
            e.id == ca.event_id && decide (sd ≤ e.event_date) &&
              decide (e.event_date ≤ ed))).isEmpty then
          [⟨cm.id, cm.name, none⟩]
        else
          (s.events.filter (fun e =>
            e.id == ca.event_id && decide (sd ≤ e.event_date) &&
              decide (e.event_date ≤ ed))).map
            (fun e => ⟨cm.id, cm.name, some (e.event_date, e.name)⟩)))

/-- Strict lexicographic order on character lists (the collation used for
`ORDER BY cm.name`). -/
def charListLt (a b : List Char) : Bool := decide (a < b)

/-- Sort key for the nullable event date: ascending with `NULL` last. -/
def dateKey : Option (ℕ × String) → ℕ × ℕ
  | some (d, _) => (0, d)
  | none => (1, 0)

/-- `ORDER BY cm.name, e.event_date` as a total preorder on rows. -/
def availLe (x y : AvailRow) : Bool :=
  if charListLt x.name.toList y.name.toList then true
  else if charListLt y.name.toList x.name.toList then false
  else
    let a := dateKey x.event
    let b := dateKey y.event
    decide (a.1 < b.1) || (a.1 == b.1 && decide (a.2 ≤ b.2))

/-- One entry of the response: a crew member with the in-range
(date, event) pairs collected for them. -/
structure AvailEntry where
  id : ℕ
  name : String
  assignments : List (ℕ × String)
deriving DecidableEq, Repr

/-- One iteration of the route's grouping loop: create the member's entry
at first sight, then push `(date, event)` when the row carries an event. -/
def availInsertRow (acc : List AvailEntry) (r : AvailRow) : List AvailEntry :=
  let acc1 := if acc.any (fun en => en.id == r.id) then acc else acc ++ [⟨r.id, r.name, []⟩]
  match r.event with
  | none => acc1
  | some ev => acc1.map (fun en =>
      if en.id == r.id then { en with assignments := en.assignments ++ [ev] } else en)

/-- `GET /availability/crew`: the ordered join rows grouped by crew
member. -/
def crewAvailability (s : Store) (sd ed : ℕ) : List AvailEntry :=
  (((availJoinRows s sd ed).insertionSort (fun x y => availLe x y = true)).foldl
    availInsertRow [])

/-! ## Cost summary report (`GET /costs`) -/

/-- Crew side of the report join for one event: per crew assignment, the
`(rate_override, hourly_rate)` pair after `LEFT JOIN crew_members`. -/
def crewTermRows (s : Store) (eid : ℕ) : List (Option ℚ × Option ℚ) :=
  (s.crew_assignments.filter (fun ca => ca.event_id == eid)).flatMap (fun ca =>
    let cms := s.crew_members.filter (fun cm => cm.id == ca.crew_member_id)
    if cms.isEmpty then [(ca.rate_override, none)]
    else cms.map (fun cm => (ca.rate_override, cm.hourly_rate)))

/-- Equipment side of the report join for one event:
`(rate_override, daily_rate, quantity)` after `LEFT JOIN equipment`. -/
def equipTermRows (s : Store) (eid : ℕ) : List (Option ℚ × Option ℚ × ℤ) :=
  (s.equipment_assignments.filter (fun ea => ea.event_id == eid)).flatMap (fun ea =>
    let eqs := s.equipment.filter (fun q => q.id == ea.equipment_id)
    if eqs.isEmpty then [(ea.rate_override, none, ea.quantity)]
    else eqs.map (fun q => (ea.rate_override, q.daily_rate, ea.quantity)))

/-- The joined rows `GROUP BY e.id` aggregates over: the SELECT left-joins
`crew_assignments` and `equipment_assignments` independently off `events`,
so the row set for one event is the cross product of the two sides (with a
single `NULL` standing in for an empty side). -/
def costJoinRows (s : Store) (eid : ℕ) :
    List (Option (Option ℚ × Option ℚ) × Option (Option ℚ × Option ℚ × ℤ)) :=
  let cs := (crewTermRows s eid).map some
  let qs := (equipTermRows s eid).map some
  let cs1 := if cs.isEmpty then [none] else cs
  let qs1 := if qs.isEmpty then [none] else qs
  cs1.flatMap (fun c => qs1.map (fun q => (c, q)))

/-- Value of `COALESCE(ca.rate_override, cm.hourly_rate, 0) * 8` on one
joined row (`0` when the crew side is `NULL`, by the final `COALESCE`
branch). -/
def crewExprVal : Option (Option ℚ × Option ℚ) → ℚ
  | none => 0
  | some (ro, hr) => effectiveRate ro hr * 8

/-- Value of `COALESCE(ea.rate_override, eq.daily_rate, 0) * ea.quantity`
on one joined row (`NULL` when the equipment side is `NULL`, because the
quantity factor is `NULL`). -/
def equipExprVal : Option (Option ℚ × Option ℚ × ℤ) → Option ℚ
  | none => none
  | some (ro, dr, q) => some (effectiveRate ro dr * (q : ℚ))

/-- The `crew_cost` column of the report SELECT for one event:
`COALESCE(SUM(...), 0)` over the joined rows. -/
def crewCostSql (s : Store) (eid : ℕ) : ℚ :=
  ((costJoinRows s eid).map (fun rw => crewExprVal rw.1)).sum

/-- The `equipment_cost` column of the report SELECT for one event
(`SUM` skips `NULL` inputs; `COALESCE` turns an all-`NULL` sum into 0). -/
def equipmentCostSql (s : Store) (eid : ℕ) : ℚ :=
  (((costJoinRows s eid).map (fun rw => equipExprVal rw.2)).filterMap id).sum

/-- The optional query filters of `GET /costs`. -/
def matchEvent (sd ed : Option ℕ) (cc : Option String) (e : Event) : Bool :=
  (match sd with | none => true | some d => decide (d ≤ e.event_date)) &&
  (match ed with | none => true | some d => decide (e.event_date ≤ d)) &&
  (match cc with | none => true | some c => e.cost_center == some c)

/-- One aggregated row of the report SELECT, with the `total` the route
computes when pushing the event. -/
structure CostRow where
  id : ℕ
  name : String
  event_date : ℕ
  cost_center : Option String
  status : String
  crew_cost : ℚ
  equipment_cost : ℚ
  total : ℚ
deriving DecidableEq, Repr

/-- The aggregated SELECT: matched events ordered by date, one row per
event with both cost columns. -/
def costRows (s : Store) (sd ed : Option ℕ) (cc : Option String) : List CostRow :=
  ((s.events.filter (matchEvent sd ed cc)).insertionSort
    (fun a b => a.event_date ≤ b.event_date)).map (fun e =>
      let c := crewCostSql s e.id
      let q := equipmentCostSql s e.id
      ⟨e.id, e.name, e.event_date, e.cost_center, e.status, c, q, c + q⟩)

/-- One cost-center bucket's running totals. -/
structure Totals where
  crew : ℚ
  equipment : ℚ
  total : ℚ
deriving DecidableEq, Repr

/-- One cost-center bucket. -/
structure Bucket where
  events : List CostRow
  totals : Totals
deriving DecidableEq, Repr

/-- `event.cost_center || 'Unassigned'`: `null` and the empty string fall
into the synthetic bucket. -/
def ccOf (r : CostRow) : String :=
  match r.cost_center with
  | none => "Unassigned"
  | some c => if c == ("") then "Unassigned" else c

/-- One iteration of the report's accumulation loop: create the bucket on
first sight, push the event, add the three components to the bucket totals
and to the grand total. -/
def costStep (acc : List (String × Bucket) × Totals) (r : CostRow) :
    List (String × Bucket) × Totals :=
  ((if acc.1.any (fun b => b.1 == ccOf r) then acc.1
    else acc.1 ++ [(ccOf r, ⟨[], ⟨0, 0, 0⟩⟩)]).map (fun b =>
      if b.1 == ccOf r then
        (b.1, ⟨b.2.events ++ [r],
          ⟨b.2.totals.crew + r.crew_cost, b.2.totals.equipment + r.equipment_cost,
            b.2.totals.total + r.total⟩⟩)
      else b),
    ⟨acc.2.crew + r.crew_cost, acc.2.equipment + r.equipment_cost,
      acc.2.total + r.total⟩)

/-- The response of `GET /costs`. -/
structure CostReport where
  byCostCenter : List (String × Bucket)
  grandTotal : Totals
  eventCount : ℕ
deriving DecidableEq, Repr

/-- `GET /costs`: group the aggregated rows by cost center and accumulate
bucket totals and the grand total in one pass. -/
def costReport (s : Store) (sd ed : Option ℕ) (cc : Option String) : CostReport :=
  ⟨((costRows s sd ed cc).foldl costStep ([], ⟨0, 0, 0⟩)).1,
    ((costRows s sd ed cc).foldl costStep ([], ⟨0, 0, 0⟩)).2,
    (costRows s sd ed cc).length⟩

/-! ## Small evaluation lemmas for the cost calculator -/

/-- `x || 0` after a successful parse is the parsed value (`0` maps to the
default `0`, which is the value itself). -/
theorem jsOrQ_zero_some (q : ℚ) : jsOrQ 0 (some q) = q := by
  unfold jsOrQ
  split <;> simp_all

/-- The empty string has no minute component, so the scan is `NaN`. -/
theorem timeHM_empty : timeHM ("") = none := by decide

/-- A nonempty clock string is truthy. -/
theorem strTruthy_of_ne (s : String) (h : s ≠ ("")) : strTruthy (some s) = true := by
  simp [strTruthy, h]

/-- Claim C3: for every crew assignment row, `calculateCrewCost` returns
rate × hours with hours = (endHour + endMinute/60) − (callHour +
callMinute/60), plus 24 when that difference is negative, when both clock
times are present; hours = 8 when either time is absent; in particular
rate 50 over 22:00–02:00 costs 200 and rate 50 with both times null costs
400. -/
theorem calculateCrewCost_spec :
    (∀ (r : JVal) (rq : ℚ) (ct et : String) (sh sm eh em : ℚ),
      parseFloatJ r = some rq →
      timeHM ct = some (sh, sm) → timeHM et = some (eh, em) →
      calculateCrewCost ⟨r, some ct, some et⟩ =
        some (rq * (if (eh + em / 60) - (sh + sm / 60) < 0
                    then (eh + em / 60) - (sh + sm / 60) + 24
                    else (eh + em / 60) - (sh + sm / 60)))) ∧
    (∀ (r : JVal) (rq : ℚ) (ct et : Option String),
      parseFloatJ r = some rq → ct = none ∨ et = none →
      calculateCrewCost ⟨r, ct, et⟩ = some (rq * 8)) ∧
    calculateCrewCost ⟨JVal.jnum 50, some ("22:00"), some ("02:00")⟩ = some 200 ∧
    calculateCrewCost ⟨JVal.jnum 50, none, none⟩ = some 400 := by
  have hmain : ∀ (r : JVal) (rq : ℚ) (ct et : String) (sh sm eh em : ℚ),
      parseFloatJ r = some rq →
      timeHM ct = some (sh, sm) → timeHM et = some (eh, em) →
      calculateCrewCost ⟨r, some ct, some et⟩ =
        some (rq * (if (eh + em / 60) - (sh + sm / 60) < 0
                    then (eh + em / 60) - (sh + sm / 60) + 24
                    else (eh + em / 60) - (sh + sm / 60))) := by
    intro r rq ct et sh sm eh em hr hct het
    have hcne : ct ≠ ("") := by
      intro h
      rw [h, timeHM_empty] at hct
      exact Option.noConfusion hct
    have hene : et ≠ ("") := by
      intro h
      rw [h, timeHM_empty] at het
      exact Option.noConfusion het
    unfold calculateCrewCost
    rw [strTruthy_of_ne ct hcne, strTruthy_of_ne et hene]
    simp only [Bool.and_self, if_true, Option.getD_some]
    rw [hct, het, hr, jsOrQ_zero_some]
  refine ⟨hmain, ?_, ?_, ?_⟩
  · intro r rq ct et hr h
    unfold calculateCrewCost
    have : (strTruthy ct && strTruthy et) = false := by
      rcases h with h | h <;> subst h <;> simp [strTruthy]
    rw [this]
    simp only [if_false, Bool.false_eq_true]
    rw [hr, jsOrQ_zero_some]
  · rw [hmain (JVal.jnum 50) 50 ("22:00") ("02:00") 22 0 2 0 rfl timeHM_2200 timeHM_0200]
    norm_num
  · norm_num [calculateCrewCost, strTruthy, parseFloatJ, jsOrQ]

/-- Witness for C3: the midnight-crossing example, with the hypotheses of
the first clause discharged at the concrete row. -/
theorem calculateCrewCost_spec_witness :
    calculateCrewCost ⟨JVal.jnum 50, some ("22:00"), some ("02:00")⟩ =
      some ((50 : ℚ) * (if ((2 : ℚ) + 0 / 60) - (22 + 0 / 60) < 0
                        then ((2 : ℚ) + 0 / 60) - (22 + 0 / 60) + 24
                        else ((2 : ℚ) + 0 / 60) - (22 + 0 / 60))) :=
  calculateCrewCost_spec.1 (JVal.jnum 50) 50 ("22:00") ("02:00") 22 0 2 0 rfl
    timeHM_2200 timeHM_0200

/-- `parseInt` of an integral number is that integer. -/
theorem ratTrunc_intCast (z : ℤ) : ratTrunc ((z : ℚ)) = z := by
  unfold ratTrunc
  rw [Rat.num_intCast, Rat.den_intCast]
  exact Int.tdiv_one z

/-- `x || d` after a successful nonzero integer parse keeps the value. -/
theorem jsOrZ_some_ne (d : ℤ) (z : ℤ) (h : z ≠ 0) : jsOrZ d (some z) = z := by
  simp [jsOrZ, h]

/-- Claim C6: `calculateEquipmentCost` is rate × quantity; a missing or
non-numeric quantity defaults to 1, a missing or non-numeric rate is
treated as 0, the function is total (never raises), and the two concrete
examples evaluate to 75 and 25. -/
theorem calculateEquipmentCost_spec :
    (∀ (a : RawEquip) (rq : ℚ), parseFloatJ a.rate = some rq →
      parseIntJ a.quantity = none → calculateEquipmentCost a = rq * 1) ∧
    (∀ a : RawEquip, parseFloatJ a.rate = none → calculateEquipmentCost a = 0) ∧
    (∀ (a : RawEquip) (rq : ℚ) (z : ℤ), parseFloatJ a.rate = some rq →
      parseIntJ a.quantity = some z → z ≠ 0 →
      calculateEquipmentCost a = rq * (z : ℚ)) ∧
    calculateEquipmentCost ⟨JVal.jnum 25, JVal.jnum 3⟩ = 75 ∧
    calculateEquipmentCost ⟨JVal.jnum 25, JVal.jnull⟩ = 25 ∧
    calculateEquipmentCost ⟨JVal.jstr ("oops"), JVal.jstr ("worse")⟩ = 0 := by
  refine ⟨?_, ?_, ?_, ?_, ?_, ?_⟩
  · intro a rq hr hq
    unfold calculateEquipmentCost
    rw [hr, hq, jsOrQ_zero_some]
    norm_num [jsOrZ]
  · intro a hr
    unfold calculateEquipmentCost
    rw [hr]
    simp [jsOrQ]
  · intro a rq z hr hq hz
    unfold calculateEquipmentCost
    rw [hr, hq, jsOrQ_zero_some, jsOrZ_some_ne _ _ hz]
  · have h3 : parseIntJ (JVal.jnum 3) = some 3 := by
      show some (ratTrunc ((3 : ℤ) : ℚ)) = some 3
      rw [ratTrunc_intCast]
    unfold calculateEquipmentCost
    rw [show (RawEquip.mk (JVal.jnum 25) (JVal.jnum 3)).quantity = JVal.jnum 3 from rfl, h3]
    norm_num [parseFloatJ, jsOrQ, jsOrZ]
  · norm_num [calculateEquipmentCost, parseFloatJ, parseIntJ, jsOrQ, jsOrZ]
  · have hr : parseFloatJ (JVal.jstr ("oops")) = none := by decide
    have hq : parseIntJ (JVal.jstr ("worse")) = none := by decide
    unfold calculateEquipmentCost
    rw [hr, hq]
    norm_num [jsOrQ, jsOrZ]

/-- Witness for C6: the quantity-defaults-to-1 clause at the concrete
example row. -/
theorem calculateEquipmentCost_spec_witness :
    calculateEquipmentCost ⟨JVal.jnum 25, JVal.jnull⟩ = 25 * 1 :=
  calculateEquipmentCost_spec.1 ⟨JVal.jnum 25, JVal.jnull⟩ 25 rfl rfl

/-- Claim C5: every cost computation resolves the effective rate by the
same chain — the assignment's override when present, else the resource's
default rate, else 0 — and an override of 10 beats a default of 20 in the
per-event cost paths. -/
theorem effectiveRate_spec :
    (∀ (r : ℚ) (d : Option ℚ), effectiveRate (some r) d = r) ∧
    (∀ d : ℚ, effectiveRate none (some d) = d) ∧
    effectiveRate none none = 0 ∧
    effectiveRate (some 10) (some 20) = 10 ∧
    (∀ (ca : CrewAssignment) (cm : CrewMember),
      ca.rate_override = some 10 → cm.hourly_rate = some 20 →
      ca.call_time = none →
      eventReportCrewCost ca cm = some (10 * 8)) ∧
    (∀ rw : Option ℚ × Option ℚ, crewExprVal (some rw) = effectiveRate rw.1 rw.2 * 8) ∧
    (∀ rw : Option ℚ × Option ℚ × ℤ,
      equipExprVal (some rw) = some (effectiveRate rw.1 rw.2.1 * (rw.2.2 : ℚ))) ∧
    (∀ (ea : EquipmentAssignment) (q : Equipment) (r : ℚ),
      ea.rate_override = some r → ea.quantity ≠ 0 →
      eventReportEquipmentCost ea q = r * ((ea.quantity : ℤ) : ℚ)) := by
  refine ⟨?_, ?_, ?_, ?_, ?_, ?_, ?_, ?_⟩
  · intro r d
    simp [effectiveRate]
  · intro d
    simp [effectiveRate]
  · simp [effectiveRate]
  · simp [effectiveRate]
  · intro ca cm hro hhr hct
    unfold eventReportCrewCost calculateCrewCost
    rw [hct, hro, hhr]
    simp [strTruthy, parseFloatJ, jsOrQ_zero_some, effectiveRate]
  · intro rw
    rcases rw with ⟨ro, hr⟩
    simp [crewExprVal]
  · intro rw
    rcases rw with ⟨ro, dr, z⟩
    simp [equipExprVal]
  · intro ea q r hro hq
    unfold eventReportEquipmentCost calculateEquipmentCost
    rw [hro]
    simp only [parseFloatJ, parseIntJ, jsOrQ_zero_some, ratTrunc_intCast,
      jsOrZ_some_ne _ _ hq, effectiveRate, Option.getD_some]

/-- Witness for C5: the override-beats-default clause at a concrete
assignment and crew member. -/
theorem effectiveRate_spec_witness :
    eventReportCrewCost
      ⟨1, 1, 2, none, none, none, some 10, some ("pending"), none, 9⟩
      ⟨2, ("Ann"), some 20, true⟩ = some (10 * 8) :=
  effectiveRate_spec.2.2.2.2.1
    ⟨1, 1, 2, none, none, none, some 10, some ("pending"), none, 9⟩
    ⟨2, ("Ann"), some 20, true⟩ rfl rfl rfl

/-! ## The one-assignment-per-resource-per-event invariant -/

/-- No two crew assignments share an (event, crew member) pair. -/
def crewPairUnique (s : Store) : Prop :=
  List.Pairwise (fun a b => ¬(a.event_id = b.event_id ∧ a.crew_member_id = b.crew_member_id))
    s.crew_assignments

/-- No two equipment assignments share an (event, equipment) pair. -/
def equipPairUnique (s : Store) : Prop :=
  List.Pairwise (fun a b => ¬(a.event_id = b.event_id ∧ a.equipment_id = b.equipment_id))
    s.equipment_assignments

/-- Claim C2: a single-item create on a valid, unoccupied (event, crew
member) pair succeeds; repeating it on the identical pair fails with
`Conflict` (a kind distinct from the other errors); and every successful
store insert — in either conflict mode, so on the single and the bulk
path alike — preserves the at-most-one-assignment-per-pair invariant;
the same holds for equipment assignments. -/
theorem create_conflict_spec :
    (∀ (s : Store) (r : CreateCrewReq) (actor : ℕ),
      s.events.any (fun e => e.id == r.event_id) = true →
      s.crew_members.any (fun cm => cm.id == r.crew_member_id && cm.is_active) = true →
      (match r.position_id with
       | none => true
       | some p => s.positions.any (fun q => q.id == p)) = true →
      pairExistsCrew s r.event_id r.crew_member_id = false →
      createCrewAssignment s r actor =
        Except.ok ({ s with crew_assignments := s.crew_assignments ++ [mkCrewRow s r actor] },
          mkCrewRow s r actor) ∧
      createCrewAssignment
        { s with crew_assignments := s.crew_assignments ++ [mkCrewRow s r actor] } r actor =
        Except.error ApiError.conflict ∧
      (crewPairUnique s →
        crewPairUnique
          { s with crew_assignments := s.crew_assignments ++ [mkCrewRow s r actor] })) ∧
    (∀ (s : Store) (r : CreateEquipReq) (actor : ℕ),
      s.events.any (fun e => e.id == r.event_id) = true →
      s.equipment.any (fun q => q.id == r.equipment_id && q.is_active) = true →
      pairExistsEquip s r.event_id r.equipment_id = false →
      createEquipmentAssignment s r actor =
        Except.ok
          ({ s with equipment_assignments := s.equipment_assignments ++ [mkEquipRow s r actor] },
            mkEquipRow s r actor) ∧
      createEquipmentAssignment
        { s with equipment_assignments := s.equipment_assignments ++ [mkEquipRow s r actor] }
        r actor = Except.error ApiError.conflict ∧
      (equipPairUnique s →
        equipPairUnique
          { s with equipment_assignments := s.equipment_assignments ++ [mkEquipRow s r actor] })) ∧
    ApiError.conflict ≠ ApiError.notFound ∧
    ApiError.conflict ≠ ApiError.badRequest ∧
    ApiError.conflict ≠ ApiError.internal ∧
    (∀ (s s2 : Store) (row : CrewAssignment) (oc : Bool),
      dbInsertCrewAssignment s row oc = Except.ok s2 →
      crewPairUnique s → crewPairUnique s2) ∧
    (∀ (s s2 : Store) (row : EquipmentAssignment),
      dbInsertEquipmentAssignment s row = Except.ok s2 →
      equipPairUnique s → equipPairUnique s2) := by
  refine ⟨?_, ?_, by decide, by decide, by decide, ?_, ?_⟩
  case refine_3 =>
    intro s s2 row oc hok hU
    unfold dbInsertCrewAssignment at hok
    by_cases hp : pairExistsCrew s row.event_id row.crew_member_id = true
    · rw [if_pos hp] at hok
      cases oc with
      | true =>
          simp only [if_true] at hok
          cases hok
          exact hU
      | false => simp at hok
    · have hp2 : pairExistsCrew s row.event_id row.crew_member_id = false := by
        cases hq : pairExistsCrew s row.event_id row.crew_member_id with
        | false => rfl
        | true => exact absurd hq hp
      rw [hp2] at hok
      simp only [Bool.false_eq_true, if_false] at hok
      by_cases hr : crewRefsOk s row = true
      · rw [hr] at hok
        simp only [Bool.not_true, Bool.false_eq_true, if_false] at hok
        cases hok
        unfold crewPairUnique at hU ⊢
        rw [List.pairwise_append]
        refine ⟨hU, List.pairwise_singleton _ _, ?_⟩
        intro a ha b hb
        simp only [List.mem_singleton] at hb
        subst hb
        intro hab
        unfold pairExistsCrew at hp2
        rw [List.any_eq_false] at hp2
        exact hp2 a ha (by simp [hab.1, hab.2])
      · have hr2 : crewRefsOk s row = false := by
          cases hq : crewRefsOk s row with
          | false => rfl
          | true => exact absurd hq hr
        rw [hr2] at hok
        simp at hok
  case refine_4 =>
    intro s s2 row hok hU
    unfold dbInsertEquipmentAssignment at hok
    by_cases hp : pairExistsEquip s row.event_id row.equipment_id = true
    · rw [if_pos hp] at hok
      exact Except.noConfusion hok
    · have hp2 : pairExistsEquip s row.event_id row.equipment_id = false := by
        cases hq : pairExistsEquip s row.event_id row.equipment_id with
        | false => rfl
        | true => exact absurd hq hp
      rw [hp2] at hok
      simp only [Bool.false_eq_true, if_false] at hok
      by_cases hr : equipRefsOk s row = true
      · rw [hr] at hok
        simp only [Bool.not_true, Bool.false_eq_true, if_false] at hok
        cases hok
        unfold equipPairUnique at hU ⊢
        rw [List.pairwise_append]
        refine ⟨hU, List.pairwise_singleton _ _, ?_⟩
        intro a ha b hb
        simp only [List.mem_singleton] at hb
        subst hb
        intro hab
        unfold pairExistsEquip at hp2
        rw [List.any_eq_false] at hp2
        exact hp2 a ha (by simp [hab.1, hab.2])
      · have hr2 : equipRefsOk s row = false := by
          cases hq : equipRefsOk s row with
          | false => rfl
          | true => exact absurd hq hr
        rw [hr2] at hok
        simp at hok
  · intro s r actor hE hM hP hPair
    have hMexists : s.crew_members.any (fun cm => cm.id == r.crew_member_id) = true := by
      rw [List.any_eq_true] at hM ⊢
      obtain ⟨cm, hmem, hcm⟩ := hM
      simp only [Bool.and_eq_true] at hcm
      exact ⟨cm, hmem, hcm.1⟩
    have hRefs : crewRefsOk s (mkCrewRow s r actor) = true := by
      unfold crewRefsOk mkCrewRow
      simp only [Bool.and_eq_true]
      exact ⟨⟨hE, hMexists⟩, hP⟩
    have hIns : dbInsertCrewAssignment s (mkCrewRow s r actor) false =
        Except.ok { s with crew_assignments := s.crew_assignments ++ [mkCrewRow s r actor] } := by
      unfold dbInsertCrewAssignment
      rw [show (mkCrewRow s r actor).event_id = r.event_id from rfl,
        show (mkCrewRow s r actor).crew_member_id = r.crew_member_id from rfl,
        hPair, hRefs]
      simp
    have hPair2 : pairExistsCrew
        { s with crew_assignments := s.crew_assignments ++ [mkCrewRow s r actor] }
        r.event_id r.crew_member_id = true := by
      unfold pairExistsCrew
      rw [List.any_eq_true]
      refine ⟨mkCrewRow s r actor, by simp, ?_⟩
      simp [mkCrewRow]
    refine ⟨?_, ?_, ?_⟩
    · unfold createCrewAssignment
      rw [hE, hM]
      simp only [Bool.not_true, Bool.false_eq_true, if_false]
      rw [hIns]
    · unfold createCrewAssignment
      rw [show ({ s with crew_assignments := s.crew_assignments ++ [mkCrewRow s r actor] }
          : Store).events = s.events from rfl] at hPair2 ⊢
      rw [hE, hM]
      simp only [Bool.not_true, Bool.false_eq_true, if_false]
      unfold dbInsertCrewAssignment
      rw [show ∀ s2 : Store, (mkCrewRow s2 r actor).event_id = r.event_id from fun _ => rfl,
        show ∀ s2 : Store, (mkCrewRow s2 r actor).crew_member_id = r.crew_member_id
          from fun _ => rfl]
      rw [hPair2]
      simp
    · intro hU
      unfold crewPairUnique at hU ⊢
      rw [List.pairwise_append]
      refine ⟨hU, List.pairwise_singleton _ _, ?_⟩
      intro a ha b hb
      simp only [List.mem_singleton] at hb
      subst hb
      unfold pairExistsCrew at hPair
      rw [List.any_eq_false] at hPair
      have := hPair a ha
      intro hab
      apply this
      rw [show (mkCrewRow s r actor).event_id = r.event_id from rfl] at hab
      rw [show (mkCrewRow s r actor).crew_member_id = r.crew_member_id from rfl] at hab
      simp [hab.1, hab.2]
  · intro s r actor hE hQ hPair
    have hQexists : s.equipment.any (fun q => q.id == r.equipment_id) = true := by
      rw [List.any_eq_true] at hQ ⊢
      obtain ⟨q, hmem, hq⟩ := hQ
      simp only [Bool.and_eq_true] at hq
      exact ⟨q, hmem, hq.1⟩
    have hRefs : equipRefsOk s (mkEquipRow s r actor) = true := by
      unfold equipRefsOk mkEquipRow
      simp only [Bool.and_eq_true]
      exact ⟨hE, hQexists⟩
    have hIns : dbInsertEquipmentAssignment s (mkEquipRow s r actor) =
        Except.ok
          { s with equipment_assignments := s.equipment_assignments ++ [mkEquipRow s r actor] } := by
      unfold dbInsertEquipmentAssignment
      rw [show (mkEquipRow s r actor).event_id = r.event_id from rfl,
        show (mkEquipRow s r actor).equipment_id = r.equipment_id from rfl,
        hPair, hRefs]
      simp
    have hPair2 : pairExistsEquip
        { s with equipment_assignments := s.equipment_assignments ++ [mkEquipRow s r actor] }
        r.event_id r.equipment_id = true := by
      unfold pairExistsEquip
      rw [List.any_eq_true]
      refine ⟨mkEquipRow s r actor, by simp, ?_⟩
      simp [mkEquipRow]
    refine ⟨?_, ?_, ?_⟩
    · unfold createEquipmentAssignment
      rw [hE, hQ]
      simp only [Bool.not_true, Bool.false_eq_true, if_false]
      rw [hIns]
    · unfold createEquipmentAssignment
      rw [show ({ s with equipment_assignments := s.equipment_assignments ++ [mkEquipRow s r actor] }
          : Store).events = s.events from rfl] at hPair2 ⊢
      rw [hE, hQ]
      simp only [Bool.not_true, Bool.false_eq_true, if_false]
      unfold dbInsertEquipmentAssignment
      rw [show ∀ s2 : Store, (mkEquipRow s2 r actor).event_id = r.event_id from fun _ => rfl,
        show ∀ s2 : Store, (mkEquipRow s2 r actor).equipment_id = r.equipment_id
          from fun _ => rfl]
      rw [hPair2]
      simp
    · intro hU
      unfold equipPairUnique at hU ⊢
      rw [List.pairwise_append]
      refine ⟨hU, List.pairwise_singleton _ _, ?_⟩
      intro a ha b hb
      simp only [List.mem_singleton] at hb
      subst hb
      unfold pairExistsEquip at hPair
      rw [List.any_eq_false] at hPair
      have := hPair a ha
      intro hab
      apply this
      rw [show (mkEquipRow s r actor).event_id = r.event_id from rfl] at hab
      rw [show (mkEquipRow s r actor).equipment_id = r.equipment_id from rfl] at hab
      simp [hab.1, hab.2]

/-- A two-resource store for exercising the create routes. -/
def C2store : Store :=
  { events := [⟨1, ("Gala"), 5, none, ("scheduled")⟩]
    crew_members := [⟨2, ("Ann"), some 20, true⟩]
    positions := []
    equipment := [⟨3, ("Camera"), some 5, true⟩]
    crew_assignments := []
    equipment_assignments := [] }

/-- The crew-create request used by the C2 witness. -/
def C2req : CreateCrewReq :=
  { event_id := 1, crew_member_id := 2, position_id := none, call_time := none,
    end_time := none, rate_override := none, notes := none }

/-- Witness for C2: the crew clause applied at the concrete store, with the
uniqueness premise of the preservation part discharged as well. -/
theorem create_conflict_spec_witness :
    createCrewAssignment C2store C2req 9 =
      Except.ok
        ({ C2store with crew_assignments := C2store.crew_assignments ++ [mkCrewRow C2store C2req 9] },
          mkCrewRow C2store C2req 9) ∧
    createCrewAssignment
      { C2store with crew_assignments := C2store.crew_assignments ++ [mkCrewRow C2store C2req 9] }
      C2req 9 = Except.error ApiError.conflict ∧
    crewPairUnique
      { C2store with crew_assignments := C2store.crew_assignments ++ [mkCrewRow C2store C2req 9] } :=
  have h := create_conflict_spec.1 C2store C2req 9 (by decide) (by decide) (by decide) (by decide)
  ⟨h.1, h.2.1, h.2.2 (by simp [crewPairUnique, C2store])⟩

/-- Claim C9: `updateCrewAssignment` rejects an empty field set with
`BadRequest` before touching the store, reports `NotFound` when no row has
the id, and otherwise rewrites exactly the supplied fields on the matched
row — an omitted field keeps its stored value and a field supplied as the
empty string is stored as `null`. -/
theorem updateCrewAssignment_spec :
    (∀ (s : Store) (id : ℕ) (r : UpdateCrewReq),
      r.hasUpdates = false →
      updateCrewAssignment s id r = Except.error ApiError.badRequest) ∧
    (∀ (s : Store) (id : ℕ) (r : UpdateCrewReq),
      r.hasUpdates = true → (∀ ca ∈ s.crew_assignments, ca.id ≠ id) →
      updateCrewAssignment s id r = Except.error ApiError.notFound) ∧
    (∀ (α : Type) (cur : Option α), applyPatch none cur = cur) ∧
    (∀ (α : Type) (cur : Option α), applyPatch (some FieldPatch.vempty) cur = none) ∧
    (∀ (α : Type) (cur : Option α) (v : α), applyPatch (some (FieldPatch.vval v)) cur = some v) ∧
    (∀ (s : Store) (id : ℕ) (r : UpdateCrewReq) (ca : CrewAssignment),
      r.hasUpdates = true → ca ∈ s.crew_assignments → ca.id = id →
      (∀ c ∈ s.crew_assignments, c.id = id → c = ca) →
      updateCrewAssignment s id r =
        Except.ok
          ({ s with crew_assignments :=
              s.crew_assignments.map (fun c => if c.id = id then applyCrewUpdates r c else c) },
            applyCrewUpdates r ca)) := by
  refine ⟨?_, ?_, ?_, ?_, ?_, ?_⟩
  · intro s id r h
    unfold updateCrewAssignment
    rw [h]
    simp
  · intro s id r hr hnone
    unfold updateCrewAssignment
    rw [hr]
    have hfil : s.crew_assignments.filter (fun ca => ca.id == id) = [] := by
      rw [List.filter_eq_nil_iff]
      intro ca hmem
      simp [hnone ca hmem]
    rw [hfil]
    simp
  · intro α cur
    rfl
  · intro α cur
    rfl
  · intro α cur v
    rfl
  · intro s id r ca hr hmem hid huniq
    have hmf : ca ∈ s.crew_assignments.filter (fun c => c.id == id) :=
      List.mem_filter.mpr ⟨hmem, by simp [hid]⟩
    cases hfil : s.crew_assignments.filter (fun c => c.id == id) with
    | nil =>
        rw [hfil] at hmf
        exact absurd hmf (List.not_mem_nil _)
    | cons hd tl =>
        have hhd : hd = ca := by
          have hin : hd ∈ s.crew_assignments.filter (fun c => c.id == id) := by
            rw [hfil]
            exact List.mem_cons_self _ _
          have hp := List.mem_filter.mp hin
          exact huniq hd hp.1 (by simpa using hp.2)
        unfold updateCrewAssignment
        rw [hr]
        simp only [Bool.not_true, Bool.false_eq_true, if_false]
        rw [hfil, hhd]

/-- The one-row store the C9 witness updates. -/
def C9store : Store :=
  { events := [⟨1, ("Gala"), 5, none, ("scheduled")⟩]
    crew_members := [⟨2, ("Ann"), some 20, true⟩]
    positions := []
    equipment := []
    crew_assignments := [⟨1, 1, 2, none, some ("10:00"), none, none, some ("pending"), none, 9⟩]
    equipment_assignments := [] }

/-- The C9 witness request: `call_time` supplied as the empty string,
everything else omitted. -/
def C9req : UpdateCrewReq :=
  { position_id := none, call_time := some FieldPatch.vempty, end_time := none,
    rate_override := none, status := none, notes := none }

/-- Witness for C9: the success clause at the concrete store — the empty
string clears `call_time`, all omitted fields survive. -/
theorem updateCrewAssignment_spec_witness :
    updateCrewAssignment C9store 1 C9req =
      Except.ok
        ({ C9store with crew_assignments :=
            C9store.crew_assignments.map (fun c => if c.id = 1 then applyCrewUpdates C9req c else c) },
          applyCrewUpdates C9req
            ⟨1, 1, 2, none, some ("10:00"), none, none, some ("pending"), none, 9⟩) :=
  updateCrewAssignment_spec.2.2.2.2.2 C9store 1 C9req
    ⟨1, 1, 2, none, some ("10:00"), none, none, some ("pending"), none, 9⟩
    (by decide) (by decide) (by decide) (by decide)

/-! ## Characterization of the bulk loop -/

/-- The foreign-key side conditions of one bulk insert, phrased on the raw
ids (the bulk route, unlike the single create, checks nothing itself and
relies on the store's constraints). -/
def bulkRefsOk (s : Store) (eid cid : ℕ) (pos : Option ℕ) : Bool :=
  s.events.any (fun e => e.id == eid) &&
  s.crew_members.any (fun cm => cm.id == cid) &&
  (match pos with
   | none => true
   | some p => s.positions.any (fun q => q.id == p))

/-- Does the bulk insert for this id land without a store error (either the
conflict clause suppresses it, or it references existing rows)? -/
def bulkOk (s : Store) (eid : ℕ) (pos : Option ℕ) (cid : ℕ) : Bool :=
  pairExistsCrew s eid cid || bulkRefsOk s eid cid pos

/-- The store constraints of a bulk row reduce to the id-level check. -/
theorem crewRefsOk_mkBulkRow (s2 s1 : Store) (eid cid : ℕ) (pos : Option ℕ)
    (ct : Option String) (actor : ℕ) :
    crewRefsOk s2 (mkBulkRow s1 eid cid pos ct actor) = bulkRefsOk s2 eid cid pos := rfl

/-- Master lemma for the bulk loop: starting from any accumulator, the loop
adds one `assigned` per id whose insert lands (judged against the initial
store) and appends one error entry per id whose insert violates a foreign
key, in input order; `skipped` is never touched. -/
theorem bulk_fold_spec (eid : ℕ) (pos : Option ℕ) (ct : Option String) (actor : ℕ) :
    ∀ (ids : List ℕ) (s : Store) (res : BulkResults),
      (ids.foldl (bulkStep eid pos ct actor) (s, res)).2.assigned =
        res.assigned + ids.countP (fun cid => bulkOk s eid pos cid) ∧
      (ids.foldl (bulkStep eid pos ct actor) (s, res)).2.errors =
        res.errors ++ (ids.filter (fun cid => !bulkOk s eid pos cid)).map
          (fun cid => (cid, dbErrMessage DbError.fkViolation)) ∧
      (ids.foldl (bulkStep eid pos ct actor) (s, res)).2.skipped = res.skipped := by
  intro ids
  induction ids with
  | nil =>
      intro s res
      simp
  | cons cid rest ih =>
      intro s res
      rw [List.foldl_cons]
      by_cases hpair : pairExistsCrew s eid cid = true
      · have hok : bulkOk s eid pos cid = true := by
          simp [bulkOk, hpair]
        have hstep : bulkStep eid pos ct actor (s, res) cid =
            (s, { res with assigned := res.assigned + 1 }) := by
          unfold bulkStep dbInsertCrewAssignment
          simp only [mkBulkRow]
          rw [show pairExistsCrew s eid cid = true from hpair]
          simp
        rw [hstep]
        obtain ⟨ha, he, hs⟩ := ih s { res with assigned := res.assigned + 1 }
        refine ⟨?_, ?_, ?_⟩
        · rw [ha, List.countP_cons]
          simp [hok]
          omega
        · rw [he]
          simp [hok]
        · exact hs
      · have hpair2 : pairExistsCrew s eid cid = false := by
          simpa using hpair
        by_cases hrefs : bulkRefsOk s eid cid pos = true
        · have hok : bulkOk s eid pos cid = true := by
            simp [bulkOk, hrefs]
          have hstep : bulkStep eid pos ct actor (s, res) cid =
              ({ s with crew_assignments :=
                  s.crew_assignments ++ [mkBulkRow s eid cid pos ct actor] },
                { res with assigned := res.assigned + 1 }) := by
            unfold bulkStep dbInsertCrewAssignment
            rw [show (mkBulkRow s eid cid pos ct actor).event_id = eid from rfl,
              show (mkBulkRow s eid cid pos ct actor).crew_member_id = cid from rfl,
              hpair2, crewRefsOk_mkBulkRow, hrefs]
            simp
          rw [hstep]
          obtain ⟨ha, he, hs⟩ :=
            ih { s with crew_assignments :=
                  s.crew_assignments ++ [mkBulkRow s eid cid pos ct actor] }
              { res with assigned := res.assigned + 1 }
          have hEq : ∀ c, bulkOk
              { s with crew_assignments :=
                  s.crew_assignments ++ [mkBulkRow s eid cid pos ct actor] } eid pos c =
              bulkOk s eid pos c := by
            intro c
            unfold bulkOk
            have hp : pairExistsCrew
                { s with crew_assignments :=
                    s.crew_assignments ++ [mkBulkRow s eid cid pos ct actor] } eid c =
                (pairExistsCrew s eid c || (cid == c)) := by
              unfold pairExistsCrew
              rw [show ({ s with crew_assignments :=
                  s.crew_assignments ++ [mkBulkRow s eid cid pos ct actor] }
                  : Store).crew_assignments =
                  s.crew_assignments ++ [mkBulkRow s eid cid pos ct actor] from rfl]
              rw [List.any_append]
              simp [mkBulkRow]
            rw [hp]
            have hb : bulkRefsOk
                { s with crew_assignments :=
                    s.crew_assignments ++ [mkBulkRow s eid cid pos ct actor] } eid c pos =
                bulkRefsOk s eid c pos := rfl
            rw [hb]
            by_cases hc : cid = c
            · subst hc
              simp [hrefs]
            · have : (cid == c) = false := by
                simpa using hc
              rw [this]
              simp
          refine ⟨?_, ?_, ?_⟩
          · rw [ha]
            simp only [hEq]
            rw [List.countP_cons]
            simp [hok]
            omega
          · rw [he]
            simp only [hEq]
            simp [hok]
          · exact hs
        · have hrefs2 : bulkRefsOk s eid cid pos = false := by
            simpa using hrefs
          have hok : bulkOk s eid pos cid = false := by
            simp [bulkOk, hpair2, hrefs2]
          have hstep : bulkStep eid pos ct actor (s, res) cid =
              (s, { res with errors :=
                  res.errors ++ [(cid, dbErrMessage DbError.fkViolation)] }) := by
            unfold bulkStep dbInsertCrewAssignment
            rw [show (mkBulkRow s eid cid pos ct actor).event_id = eid from rfl,
              show (mkBulkRow s eid cid pos ct actor).crew_member_id = cid from rfl,
              hpair2, crewRefsOk_mkBulkRow, hrefs2]
            simp
          rw [hstep]
          obtain ⟨ha, he, hs⟩ :=
            ih s { res with errors := res.errors ++ [(cid, dbErrMessage DbError.fkViolation)] }
          refine ⟨?_, ?_, ?_⟩
          · rw [ha, List.countP_cons]
            simp [hok]
          · rw [he]
            simp [hok]
          · exact hs

/-- Splitting a list count by a predicate and its negation. -/
theorem countP_not_split {α : Type} (p : α → Bool) :
    ∀ l : List α, l.countP p + l.countP (fun a => !p a) = l.length := by
  intro l
  induction l with
  | nil => simp
  | cons a t ih =>
      rw [List.countP_cons, List.countP_cons]
      by_cases h : p a = true
      · simp [h]
        omega
      · rw [Bool.not_eq_true] at h
        simp [h]
        omega

/-- Claim C1: each bulk input id is attempted independently — a duplicate
(event, crewMember) pair is silently suppressed and never appears in the
error list, an id whose insert violates a store constraint lands in the
per-id error list without aborting the batch or blocking a valid sibling,
the call always yields a results object, and assigned + errors ≤ input
count. -/
theorem bulkCreate_partial_failure_spec :
    ∀ (s : Store) (eid : ℕ) (ids : List ℕ) (pos : Option ℕ) (ct : Option String) (actor : ℕ),
      (bulkCreateCrewAssignments s eid ids pos ct actor).2.assigned +
        (bulkCreateCrewAssignments s eid ids pos ct actor).2.errors.length = ids.length ∧
      (bulkCreateCrewAssignments s eid ids pos ct actor).2.assigned +
        (bulkCreateCrewAssignments s eid ids pos ct actor).2.errors.length ≤ ids.length ∧
      (∀ cid ∈ ids, pairExistsCrew s eid cid = true →
        ∀ msg, (cid, msg) ∉ (bulkCreateCrewAssignments s eid ids pos ct actor).2.errors) ∧
      (∀ cid ∈ ids, bulkOk s eid pos cid = false →
        (cid, dbErrMessage DbError.fkViolation) ∈
          (bulkCreateCrewAssignments s eid ids pos ct actor).2.errors) ∧
      (∀ cid ∈ ids, bulkRefsOk s eid cid pos = true →
        ∀ msg, (cid, msg) ∉ (bulkCreateCrewAssignments s eid ids pos ct actor).2.errors) := by
  intro s eid ids pos ct actor
  obtain ⟨ha, he, _⟩ := bulk_fold_spec eid pos ct actor ids s ⟨0, 0, []⟩
  have hsum : (bulkCreateCrewAssignments s eid ids pos ct actor).2.assigned +
      (bulkCreateCrewAssignments s eid ids pos ct actor).2.errors.length = ids.length := by
    unfold bulkCreateCrewAssignments
    rw [ha, he]
    simp only [List.nil_append, List.length_map]
    rw [← List.countP_eq_length_filter]
    have hsplit := countP_not_split (fun cid => bulkOk s eid pos cid) ids
    simpa using hsplit
  refine ⟨hsum, le_of_eq hsum, ?_, ?_, ?_⟩
  · intro cid hin hpair msg hmem
    unfold bulkCreateCrewAssignments at hmem
    rw [he] at hmem
    simp only [List.nil_append, List.mem_map, List.mem_filter] at hmem
    obtain ⟨c, ⟨_, hbad⟩, hpairEq⟩ := hmem
    have hc : c = cid := congrArg Prod.fst hpairEq
    subst hc
    rw [show bulkOk s eid pos c = (pairExistsCrew s eid c || bulkRefsOk s eid c pos) from rfl,
      hpair] at hbad
    simp at hbad
  · intro cid hin hbad
    unfold bulkCreateCrewAssignments
    rw [he]
    simp only [List.nil_append, List.mem_map, List.mem_filter]
    exact ⟨cid, ⟨hin, by simp [hbad]⟩, rfl⟩
  · intro cid hin hrefs msg hmem
    unfold bulkCreateCrewAssignments at hmem
    rw [he] at hmem
    simp only [List.nil_append, List.mem_map, List.mem_filter] at hmem
    obtain ⟨c, ⟨_, hbad⟩, hpairEq⟩ := hmem
    have hc : c = cid := congrArg Prod.fst hpairEq
    subst hc
    rw [show bulkOk s eid pos c = (pairExistsCrew s eid c || bulkRefsOk s eid c pos) from rfl,
      hrefs] at hbad
    simp at hbad

/-- Claim C10: the bulk result's `skipped` counter is always 0, `assigned`
counts exactly the ids whose insert raised no store error — a duplicate
pair, suppressed by the conflict clause, is still counted as assigned —
and assigned + |errors| always equals the number of input ids. -/
theorem bulkCreate_results_shape_spec :
    ∀ (s : Store) (eid : ℕ) (ids : List ℕ) (pos : Option ℕ) (ct : Option String) (actor : ℕ),
      (bulkCreateCrewAssignments s eid ids pos ct actor).2.skipped = 0 ∧
      (bulkCreateCrewAssignments s eid ids pos ct actor).2.assigned =
        ids.countP (fun cid => bulkOk s eid pos cid) ∧
      (∀ cid, pairExistsCrew s eid cid = true → bulkOk s eid pos cid = true) ∧
      (bulkCreateCrewAssignments s eid ids pos ct actor).2.assigned +
        (bulkCreateCrewAssignments s eid ids pos ct actor).2.errors.length = ids.length := by
  intro s eid ids pos ct actor
  obtain ⟨ha, he, hs⟩ := bulk_fold_spec eid pos ct actor ids s ⟨0, 0, []⟩
  refine ⟨?_, ?_, ?_, ?_⟩
  · unfold bulkCreateCrewAssignments
    rw [hs]
  · unfold bulkCreateCrewAssignments
    rw [ha]
    simp
  · intro cid hpair
    simp [bulkOk, hpair]
  · unfold bulkCreateCrewAssignments
    rw [ha, he]
    simp only [List.nil_append, List.length_map]
    rw [← List.countP_eq_length_filter]
    have hsplit := countP_not_split (fun cid => bulkOk s eid pos cid) ids
    simpa using hsplit

/-- The store the two bulk witnesses run against: member 2 is free, member
3 is already assigned to the event, id 99 does not exist. -/
def C1store : Store :=
  { events := [⟨1, ("Gala"), 5, none, ("scheduled")⟩]
    crew_members := [⟨2, ("Ann"), some 20, true⟩, ⟨3, ("Bob"), none, true⟩]
    positions := []
    equipment := []
    crew_assignments := [⟨7, 1, 3, none, none, none, none, some ("pending"), none, 9⟩]
    equipment_assignments := [] }

/-- Witness for C1: on input `[2, 3, 99]` the duplicate (3) is not an
error, the nonexistent id (99) is in the error list, the valid id (2) is
not blocked, and assigned + errors covers all three ids. -/
theorem bulkCreate_partial_failure_spec_witness :
    (bulkCreateCrewAssignments C1store 1 [2, 3, 99] none none 9).2.assigned +
      (bulkCreateCrewAssignments C1store 1 [2, 3, 99] none none 9).2.errors.length = 3 ∧
    (∀ msg, (3, msg) ∉ (bulkCreateCrewAssignments C1store 1 [2, 3, 99] none none 9).2.errors) ∧
    (99, dbErrMessage DbError.fkViolation) ∈
      (bulkCreateCrewAssignments C1store 1 [2, 3, 99] none none 9).2.errors ∧
    (∀ msg, (2, msg) ∉ (bulkCreateCrewAssignments C1store 1 [2, 3, 99] none none 9).2.errors) :=
  have h := bulkCreate_partial_failure_spec C1store 1 [2, 3, 99] none none 9
  ⟨h.1, h.2.2.1 3 (by decide) (by decide),
    h.2.2.2.1 99 (by decide) (by decide),
    h.2.2.2.2 2 (by decide) (by decide)⟩

/-- Witness for C10: the same bulk call has `skipped = 0`, counts the
duplicate as assigned (`assigned = 2`), and assigned + errors equals the
input count. -/
theorem bulkCreate_results_shape_spec_witness :
    (bulkCreateCrewAssignments C1store 1 [2, 3, 99] none none 9).2.skipped = 0 ∧
    (bulkCreateCrewAssignments C1store 1 [2, 3, 99] none none 9).2.assigned =
      List.countP (fun cid => bulkOk C1store 1 none cid) [2, 3, 99] ∧
    bulkOk C1store 1 none 3 = true ∧
    (bulkCreateCrewAssignments C1store 1 [2, 3, 99] none none 9).2.assigned +
      (bulkCreateCrewAssignments C1store 1 [2, 3, 99] none none 9).2.errors.length = 3 :=
  have h := bulkCreate_results_shape_spec C1store 1 [2, 3, 99] none none 9
  ⟨h.1, h.2.1, h.2.2.1 3 (by decide), h.2.2.2⟩

/-! ## The grand total of the cost report -/

/-- Sum of one totals component over all buckets. -/
def bucketsSum (f : Bucket → ℚ) (bs : List (String × Bucket)) : ℚ :=
  (bs.map (fun b => f b.2)).sum

/-- Updating the single bucket carrying a key adds exactly the update's
contribution to the bucket-component sum, provided bucket keys are
distinct. -/
theorem sum_map_ite_update (cc : String) (u : (String × Bucket) → (String × Bucket))
    (sel : Bucket → ℚ) (d : ℚ)
    (hu : ∀ b : String × Bucket, b.1 = cc → sel (u b).2 = sel b.2 + d) :
    ∀ l : List (String × Bucket), (l.map Prod.fst).Nodup →
      l.any (fun b => b.1 == cc) = true →
      ((l.map (fun b => if b.1 == cc then u b else b)).map (fun b => sel b.2)).sum =
        (l.map (fun b => sel b.2)).sum + d := by
  intro l
  induction l with
  | nil =>
      intro _ hany
      simp at hany
  | cons hd tl ih =>
      intro hnd hany
      rw [List.map_cons] at hnd
      have hnd2 := List.nodup_cons.mp hnd
      by_cases h : hd.1 = cc
      · have hbeq : (hd.1 == cc) = true := by simp [h]
        have hmap : tl.map (fun b => if b.1 == cc then u b else b) = tl := by
          conv_rhs => rw [← List.map_id tl]
          apply List.map_congr_left
          intro b hb
          have hne : b.1 ≠ cc := by
            intro hbc
            exact hnd2.1 (by rw [h, ← hbc]; exact List.mem_map_of_mem _ hb)
          simp [hne]
        rw [List.map_cons, hbeq]
        simp only [if_true]
        rw [hmap, List.map_cons, List.sum_cons, List.map_cons, List.sum_cons, hu hd h]
        ring
      · have hbeq : (hd.1 == cc) = false := by simp [h]
        have hany2 : tl.any (fun b => b.1 == cc) = true := by
          rcases List.any_eq_true.mp hany with ⟨b, hb, hbp⟩
          rcases List.mem_cons.mp hb with hb1 | hb2
          · subst hb1
            rw [hbeq] at hbp
            exact absurd hbp (by simp)
          · exact List.any_eq_true.mpr ⟨b, hb2, hbp⟩
        rw [List.map_cons, hbeq]
        simp only [if_false, Bool.false_eq_true]
        rw [List.map_cons, List.sum_cons, List.map_cons, List.sum_cons, ih hnd2.2 hany2]
        ring

/-- One accumulation step keeps bucket keys distinct and keeps the running
grand total equal to the sum of bucket totals, in all three components. -/
theorem costStep_preserves (acc : List (String × Bucket) × Totals) (r : CostRow)
    (hnd : (acc.1.map Prod.fst).Nodup)
    (hc : acc.2.crew = bucketsSum (fun b => b.totals.crew) acc.1)
    (he : acc.2.equipment = bucketsSum (fun b => b.totals.equipment) acc.1)
    (ht : acc.2.total = bucketsSum (fun b => b.totals.total) acc.1) :
    ((costStep acc r).1.map Prod.fst).Nodup ∧
    (costStep acc r).2.crew = bucketsSum (fun b => b.totals.crew) (costStep acc r).1 ∧
    (costStep acc r).2.equipment = bucketsSum (fun b => b.totals.equipment) (costStep acc r).1 ∧
    (costStep acc r).2.total = bucketsSum (fun b => b.totals.total) (costStep acc r).1 := by
  unfold costStep
  by_cases hin : acc.1.any (fun b => b.1 == ccOf r) = true
  · rw [hin]
    simp only [if_true]
    have hkeys : ((acc.1.map (fun b =>
        if b.1 == ccOf r then
          (b.1, Bucket.mk (b.2.events ++ [r])
            ⟨b.2.totals.crew + r.crew_cost, b.2.totals.equipment + r.equipment_cost,
              b.2.totals.total + r.total⟩)
        else b)).map Prod.fst) = acc.1.map Prod.fst := by
      rw [List.map_map]
      apply List.map_congr_left
      intro b _
      by_cases hb : (b.1 == ccOf r) = true
      · have hbe : b.1 = ccOf r := by simpa using hb
        simp only [Function.comp_apply, hb, if_true]
      · rw [Bool.not_eq_true] at hb
        simp only [Function.comp_apply, hb, Bool.false_eq_true, if_false]
    refine ⟨by rw [hkeys]; exact hnd, ?_, ?_, ?_⟩
    · rw [hc]
      exact (sum_map_ite_update (ccOf r) _ (fun b => b.totals.crew) r.crew_cost
        (fun b _ => rfl) acc.1 hnd hin).symm
    · rw [he]
      exact (sum_map_ite_update (ccOf r) _ (fun b => b.totals.equipment) r.equipment_cost
        (fun b _ => rfl) acc.1 hnd hin).symm
    · rw [ht]
      exact (sum_map_ite_update (ccOf r) _ (fun b => b.totals.total) r.total
        (fun b _ => rfl) acc.1 hnd hin).symm
  · have hin2 : acc.1.any (fun b => b.1 == ccOf r) = false := by
      cases hq : acc.1.any (fun b => b.1 == ccOf r) with
      | false => rfl
      | true => exact absurd hq hin
    rw [hin2]
    simp only [Bool.false_eq_true, if_false]
    have hnotin : ∀ b ∈ acc.1, (b.1 == ccOf r) = false := by
      intro b hb
      have hx := List.any_eq_false.mp hin2 b hb
      simpa using hx
    have hmap : (acc.1 ++ [(ccOf r, Bucket.mk [] ⟨0, 0, 0⟩)]).map (fun b =>
        if b.1 == ccOf r then
          (b.1, Bucket.mk (b.2.events ++ [r])
            ⟨b.2.totals.crew + r.crew_cost, b.2.totals.equipment + r.equipment_cost,
              b.2.totals.total + r.total⟩)
        else b) =
        acc.1 ++
          [(ccOf r, Bucket.mk [r] ⟨0 + r.crew_cost, 0 + r.equipment_cost, 0 + r.total⟩)] := by
      rw [List.map_append]
      congr 1
      · conv_rhs => rw [← List.map_id acc.1]
        apply List.map_congr_left
        intro b hb
        simp [hnotin b hb]
      · simp
    rw [hmap]
    have hcc : ccOf r ∉ acc.1.map Prod.fst := by
      intro hmem
      rcases List.mem_map.mp hmem with ⟨b, hb, hfst⟩
      have := hnotin b hb
      rw [hfst] at this
      simp at this
    refine ⟨?_, ?_, ?_, ?_⟩
    · rw [List.map_append]
      rw [List.nodup_append]
      refine ⟨hnd, by simp, ?_⟩
      intro a ha hb
      simp only [List.map_cons, List.map_nil, List.mem_singleton] at hb
      subst hb
      exact hcc ha
    · unfold bucketsSum
      rw [List.map_append, List.sum_append, hc]
      simp [bucketsSum]
    · unfold bucketsSum
      rw [List.map_append, List.sum_append, he]
      simp [bucketsSum]
    · unfold bucketsSum
      rw [List.map_append, List.sum_append, ht]
      simp [bucketsSum]

/-- The accumulation invariant holds along the whole report loop. -/
theorem costFold_invariant :
    ∀ (rows : List CostRow) (acc : List (String × Bucket) × Totals),
      (acc.1.map Prod.fst).Nodup →
      acc.2.crew = bucketsSum (fun b => b.totals.crew) acc.1 →
      acc.2.equipment = bucketsSum (fun b => b.totals.equipment) acc.1 →
      acc.2.total = bucketsSum (fun b => b.totals.total) acc.1 →
      (((rows.foldl costStep acc).1.map Prod.fst).Nodup ∧
       (rows.foldl costStep acc).2.crew =
         bucketsSum (fun b => b.totals.crew) (rows.foldl costStep acc).1 ∧
       (rows.foldl costStep acc).2.equipment =
         bucketsSum (fun b => b.totals.equipment) (rows.foldl costStep acc).1 ∧
       (rows.foldl costStep acc).2.total =
         bucketsSum (fun b => b.totals.total) (rows.foldl costStep acc).1) := by
  intro rows
  induction rows with
  | nil =>
      intro acc h1 h2 h3 h4
      exact ⟨h1, h2, h3, h4⟩
  | cons r rest ih =>
      intro acc h1 h2 h3 h4
      rw [List.foldl_cons]
      obtain ⟨g1, g2, g3, g4⟩ := costStep_preserves acc r h1 h2 h3 h4
      exact ih (costStep acc r) g1 g2 g3 g4

/-- Claim C7: in every cost report, each component of the grand total —
crew, equipment and total — equals the sum of that component over every
cost-center bucket, whatever the partition (the `Unassigned` bucket
included). -/
theorem costReport_grandTotal_spec :
    ∀ (s : Store) (sd ed : Option ℕ) (cc : Option String),
      (costReport s sd ed cc).grandTotal.crew =
        bucketsSum (fun b => b.totals.crew) (costReport s sd ed cc).byCostCenter ∧
      (costReport s sd ed cc).grandTotal.equipment =
        bucketsSum (fun b => b.totals.equipment) (costReport s sd ed cc).byCostCenter ∧
      (costReport s sd ed cc).grandTotal.total =
        bucketsSum (fun b => b.totals.total) (costReport s sd ed cc).byCostCenter := by
  intro s sd ed cc
  obtain ⟨_, h2, h3, h4⟩ := costFold_invariant (costRows s sd ed cc) ([], ⟨0, 0, 0⟩)
    (by simp) (by simp [bucketsSum]) (by simp [bucketsSum]) (by simp [bucketsSum])
  exact ⟨h2, h3, h4⟩

/-! ## The join fan-out in the cost summary SELECT -/

/-- An event with one crew assignment (override rate 10) and two equipment
assignments (override rate 5, quantity 1 each); the resource tables
themselves are not needed because the overrides short-circuit the
`COALESCE` chains. -/
def C4store : Store :=
  { events := [⟨1, ("Shoot"), 10, none, ("scheduled")⟩]
    crew_members := []
    positions := []
    equipment := []
    crew_assignments := [⟨11, 1, 2, none, none, none, some 10, some ("pending"), none, 9⟩]
    equipment_assignments :=
      [⟨21, 1, 3, 1, some 5, none, 9⟩, ⟨22, 1, 4, 1, some 5, none, 9⟩] }

/-- Claim C4 is violated by the code: the report SELECT left-joins the crew
and equipment assignment tables independently off `events`, so with one
crew assignment (rate 10) and two equipment assignments the crew subtotal
comes out as 10 × 8 × 2 = 160 while the sum over the event's crew
assignments of effectiveRate × 8 is 80; the grouping into the
`Unassigned` bucket itself behaves as claimed. -/
theorem costReport_fanout_divergence :
    crewCostSql C4store 1 = 160 ∧
    ((crewTermRows C4store 1).map (fun rw => effectiveRate rw.1 rw.2 * 8)).sum = 80 ∧
    equipmentCostSql C4store 1 = 10 ∧
    ((equipTermRows C4store 1).map
      (fun rw => effectiveRate rw.1 rw.2.1 * ((rw.2.2 : ℤ) : ℚ))).sum = 10 ∧
    ((160 : ℚ) ≠ 80) ∧
    ((costReport C4store none none none).byCostCenter.map Prod.fst) = [("Unassigned")] := by
  have hcrew : crewTermRows C4store 1 = [(some 10, none)] := by
    simp [crewTermRows, C4store]
  have hequip : equipTermRows C4store 1 = [(some 5, none, 1), (some 5, none, 1)] := by
    simp [equipTermRows, C4store]
  have hjoin : costJoinRows C4store 1 =
      [(some (some 10, none), some (some 5, none, 1)),
       (some (some 10, none), some (some 5, none, 1))] := by
    simp [costJoinRows, hcrew, hequip]
  refine ⟨?_, ?_, ?_, ?_, by norm_num, ?_⟩
  · rw [crewCostSql, hjoin]
    norm_num [crewExprVal, effectiveRate]
  · rw [hcrew]
    norm_num [effectiveRate]
  · rw [equipmentCostSql, hjoin]
    simp only [List.map_cons, List.map_nil, equipExprVal, List.filterMap_cons, id]
    norm_num [effectiveRate]
  · rw [hequip]
    norm_num [effectiveRate]
  · simp [costReport, costRows, C4store, matchEvent, costStep, ccOf]

/-! ## Order facts for the availability sort -/

/-- Two character lists with neither strictly below the other are equal. -/
theorem charListLt_conn (a b : List Char) (h1 : charListLt a b = false)
    (h2 : charListLt b a = false) : a = b := by
  unfold charListLt at h1 h2
  rw [decide_eq_false_iff_not] at h1 h2
  exact le_antisymm (not_lt.mp h2) (not_lt.mp h1)

/-- Transitivity of the collation. -/
theorem charListLt_trans (a b c : List Char) (h1 : charListLt a b = true)
    (h2 : charListLt b c = true) : charListLt a c = true := by
  unfold charListLt at h1 h2 ⊢
  rw [decide_eq_true_iff] at h1 h2 ⊢
  exact lt_trans h1 h2

/-- The numeric tail of the row order, on the date keys. -/
theorem availLe_of_names (x y : AvailRow)
    (h1 : charListLt x.name.toList y.name.toList = false)
    (h2 : charListLt y.name.toList x.name.toList = false) :
    availLe x y = (decide ((dateKey x.event).1 < (dateKey y.event).1) ||
      ((dateKey x.event).1 == (dateKey y.event).1 &&
        decide ((dateKey x.event).2 ≤ (dateKey y.event).2))) := by
  unfold availLe
  rw [h1, h2]
  simp

instance : IsTotal AvailRow (fun x y => availLe x y = true) := by
  constructor
  intro x y
  by_cases h1 : charListLt x.name.toList y.name.toList = true
  · left
    unfold availLe
    rw [h1]
    simp
  · rw [Bool.not_eq_true] at h1
    by_cases h2 : charListLt y.name.toList x.name.toList = true
    · right
      unfold availLe
      rw [h2]
      simp
    · rw [Bool.not_eq_true] at h2
      rw [availLe_of_names x y h1 h2, availLe_of_names y x h2 h1]
      rcases Nat.lt_trichotomy (dateKey x.event).1 (dateKey y.event).1 with h | h | h
      · left
        simp [h]
      · rcases Nat.le_total (dateKey x.event).2 (dateKey y.event).2 with hm | hm
        · left
          simp [h, hm]
        · right
          simp [h, hm]
      · right
        simp [h]

instance : IsTrans AvailRow (fun x y => availLe x y = true) := by
  constructor
  intro x y z hxy hyz
  by_cases h1 : charListLt x.name.toList y.name.toList = true
  · by_cases h2 : charListLt y.name.toList z.name.toList = true
    · unfold availLe
      rw [charListLt_trans _ _ _ h1 h2]
      simp
    · rw [Bool.not_eq_true] at h2
      by_cases h3 : charListLt z.name.toList y.name.toList = true
      · unfold availLe at hyz
        rw [h2, h3] at hyz
        simp at hyz
      · rw [Bool.not_eq_true] at h3
        have hnames : y.name.toList = z.name.toList := charListLt_conn _ _ h2 h3
        unfold availLe
        rw [← hnames, h1]
        simp
  · rw [Bool.not_eq_true] at h1
    by_cases h1b : charListLt y.name.toList x.name.toList = true
    · unfold availLe at hxy
      rw [h1, h1b] at hxy
      simp at hxy
    · rw [Bool.not_eq_true] at h1b
      have hxy_names : x.name.toList = y.name.toList := charListLt_conn _ _ h1 h1b
      by_cases h2 : charListLt y.name.toList z.name.toList = true
      · unfold availLe
        rw [hxy_names, h2]
        simp
      · rw [Bool.not_eq_true] at h2
        by_cases h3 : charListLt z.name.toList y.name.toList = true
        · unfold availLe at hyz
          rw [h2, h3] at hyz
          simp at hyz
        · rw [Bool.not_eq_true] at h3
          have hyz_names : y.name.toList = z.name.toList := charListLt_conn _ _ h2 h3
          rw [availLe_of_names x y h1 h1b] at hxy
          rw [availLe_of_names y z h2 h3] at hyz
          have hxz1 : charListLt x.name.toList z.name.toList = false := by
            rw [hxy_names]
            exact h2
          have hxz2 : charListLt z.name.toList x.name.toList = false := by
            rw [hxy_names]
            exact h3
          rw [availLe_of_names x z hxz1 hxz2]
          simp only [Bool.or_eq_true, Bool.and_eq_true, decide_eq_true_iff,
            beq_iff_eq] at hxy hyz ⊢
          omega

/-! ## Characterization of the availability grouping loop -/

/-- The (date, event) contribution of one join row, as a list. -/
def evList (r : AvailRow) : List (ℕ × String) :=
  match r.event with
  | none => []
  | some ev => [ev]

/-- One iteration of the grouping loop in uniform map form: the pushed
suffix is empty exactly when the row carries no event. -/
theorem availInsertRow_eq (acc : List AvailEntry) (r : AvailRow) :
    availInsertRow acc r =
      (if acc.any (fun en => en.id == r.id) then acc
       else acc ++ [⟨r.id, r.name, []⟩]).map
        (fun en => if en.id == r.id then
            { en with assignments := en.assignments ++ evList r } else en) := by
  unfold availInsertRow
  cases hev : r.event with
  | none => simp [evList, hev]
  | some ev => simp [evList, hev]

/-- The event contribution of a singleton row list. -/
theorem filterMap_event_single (r : AvailRow) :
    ([r].filterMap (fun rr => rr.event)) = evList r := by
  cases hev : r.event <;> simp [evList, hev]

/-- Invariant tying the grouping accumulator to the rows already
consumed: entry ids are distinct, every entry stems from a consumed row,
an entry exists exactly for the consumed ids, and each entry's
assignment list is the event projection of its rows in consumption
order. -/
def AvailInv (processed : List AvailRow) (acc : List AvailEntry) : Prop :=
  ((acc.map (fun en => en.id)).Nodup) ∧
  (∀ en ∈ acc, ∃ rr ∈ processed, rr.id = en.id ∧ rr.name = en.name) ∧
  (∀ k : ℕ, (∃ en ∈ acc, en.id = k) ↔ k ∈ processed.map (fun rr => rr.id)) ∧
  (∀ en ∈ acc, en.assignments =
    (processed.filter (fun rr => rr.id == en.id)).filterMap (fun rr => rr.event))

/-- The grouping invariant survives one loop iteration. -/
theorem availInsertRow_spec (processed : List AvailRow) (acc : List AvailEntry) (r : AvailRow)
    (h : AvailInv processed acc) : AvailInv (processed ++ [r]) (availInsertRow acc r) := by
  obtain ⟨hnd, hsrc, hiff, hasg⟩ := h
  rw [availInsertRow_eq]
  by_cases hany : acc.any (fun en => en.id == r.id) = true
  · rw [hany]
    simp only [if_true]
    have hpush_id : ∀ en : AvailEntry,
        (if en.id == r.id then { en with assignments := en.assignments ++ evList r }
         else en).id = en.id := by
      intro en
      by_cases hb : (en.id == r.id) = true
      · rw [hb]
        simp
      · rw [Bool.not_eq_true] at hb
        rw [hb]
        simp
    refine ⟨?_, ?_, ?_, ?_⟩
    · rw [List.map_map]
      have : ((fun en : AvailEntry => en.id) ∘ (fun en =>
          if en.id == r.id then { en with assignments := en.assignments ++ evList r }
          else en)) = fun en => en.id := by
        funext en
        exact hpush_id en
      rw [this]
      exact hnd
    · intro en2 hen2
      rcases List.mem_map.mp hen2 with ⟨en, hen, hpush⟩
      obtain ⟨rr, hrr, hid, hname⟩ := hsrc en hen
      refine ⟨rr, List.mem_append_left _ hrr, ?_, ?_⟩
      · rw [← hpush, hpush_id en]
        exact hid
      · rw [← hpush]
        by_cases hb : (en.id == r.id) = true
        · rw [hb]
          simpa using hname
        · rw [Bool.not_eq_true] at hb
          rw [hb]
          simpa using hname
    · intro k
      constructor
      · intro ⟨en2, hen2, hk⟩
        rcases List.mem_map.mp hen2 with ⟨en, hen, hpush⟩
        have : en.id = k := by
          rw [← hk, ← hpush, hpush_id en]
        have := (hiff k).mp ⟨en, hen, this⟩
        rw [List.map_append]
        exact List.mem_append_left _ this
      · intro hk
        rw [List.map_append] at hk
        rcases List.mem_append.mp hk with hk1 | hk2
        · obtain ⟨en, hen, hid⟩ := (hiff k).mpr hk1
          refine ⟨if en.id == r.id then { en with assignments := en.assignments ++ evList r }
            else en, List.mem_map_of_mem _ hen, ?_⟩
          rw [hpush_id en]
          exact hid
        · simp only [List.map_cons, List.map_nil, List.mem_singleton] at hk2
          rcases List.any_eq_true.mp hany with ⟨en, hen, hb⟩
          refine ⟨if en.id == r.id then { en with assignments := en.assignments ++ evList r }
            else en, List.mem_map_of_mem _ hen, ?_⟩
          rw [hpush_id en]
          rw [hk2]
          simpa using hb
    · intro en2 hen2
      rcases List.mem_map.mp hen2 with ⟨en, hen, hpush⟩
      by_cases hb : (en.id == r.id) = true
      · have hide : en.id = r.id := by simpa using hb
        have hfil : (processed ++ [r]).filter (fun rr => rr.id == en2.id) =
            processed.filter (fun rr => rr.id == en.id) ++ [r] := by
          rw [List.filter_append]
          have hen2id : en2.id = en.id := by
            rw [← hpush, hpush_id en]
          rw [hen2id]
          congr 1
          simp [hide]
        rw [hfil, List.filterMap_append, filterMap_event_single]
        rw [← hasg en hen]
        rw [← hpush, hb]
        simp
      · rw [Bool.not_eq_true] at hb
        have hide : en.id ≠ r.id := by simpa using hb
        have hen2id : en2.id = en.id := by
          rw [← hpush, hpush_id en]
        have hfil : (processed ++ [r]).filter (fun rr => rr.id == en2.id) =
            processed.filter (fun rr => rr.id == en.id) := by
          rw [List.filter_append, hen2id]
          have hne : (r.id == en.id) = false := by
            simp only [beq_eq_false_iff_ne, ne_eq]
            intro hh
            exact hide hh.symm
          have : [r].filter (fun rr => rr.id == en.id) = [] := by
            simp [hne]
          rw [this, List.append_nil]
        rw [hfil, ← hasg en hen, ← hpush, hb]
        simp
  · have hany2 : acc.any (fun en => en.id == r.id) = false := by
      cases hq : acc.any (fun en => en.id == r.id) with
      | false => rfl
      | true => exact absurd hq hany
    rw [hany2]
    simp only [Bool.false_eq_true, if_false]
    have hnotin : ∀ en ∈ acc, en.id ≠ r.id := by
      intro en hen heq
      have := List.any_eq_false.mp hany2 en hen
      simp [heq] at this
    have hrid_not : r.id ∉ processed.map (fun rr => rr.id) := by
      intro hmem
      obtain ⟨en, hen, hid⟩ := (hiff r.id).mpr hmem
      exact hnotin en hen hid
    have hmap : (acc ++ [(⟨r.id, r.name, []⟩ : AvailEntry)]).map
        (fun en => if en.id == r.id then
          { en with assignments := en.assignments ++ evList r } else en) =
        acc ++ [⟨r.id, r.name, evList r⟩] := by
      rw [List.map_append]
      congr 1
      · conv_rhs => rw [← List.map_id acc]
        apply List.map_congr_left
        intro en hen
        simp [hnotin en hen]
      · simp
    rw [hmap]
    refine ⟨?_, ?_, ?_, ?_⟩
    · rw [List.map_append, List.nodup_append]
      refine ⟨hnd, by simp, ?_⟩
      intro k hk hk2
      simp only [List.map_cons, List.map_nil, List.mem_singleton] at hk2
      subst hk2
      rcases List.mem_map.mp hk with ⟨en, hen, hid⟩
      exact hnotin en hen hid
    · intro en hen
      rcases List.mem_append.mp hen with h1 | h2
      · obtain ⟨rr, hrr, hid, hname⟩ := hsrc en h1
        exact ⟨rr, List.mem_append_left _ hrr, hid, hname⟩
      · simp only [List.mem_singleton] at h2
        subst h2
        exact ⟨r, List.mem_append_right _ (by simp), rfl, rfl⟩
    · intro k
      rw [List.map_append]
      constructor
      · intro ⟨en, hen, hk⟩
        rcases List.mem_append.mp hen with h1 | h2
        · exact List.mem_append_left _ ((hiff k).mp ⟨en, h1, hk⟩)
        · simp only [List.mem_singleton] at h2
          subst h2
          refine List.mem_append_right _ ?_
          simp [← hk]
      · intro hk
        rcases List.mem_append.mp hk with h1 | h2
        · obtain ⟨en, hen, hid⟩ := (hiff k).mpr h1
          exact ⟨en, List.mem_append_left _ hen, hid⟩
        · simp only [List.map_cons, List.map_nil, List.mem_singleton] at h2
          exact ⟨⟨r.id, r.name, evList r⟩, List.mem_append_right _ (by simp), h2.symm⟩
    · intro en hen
      rcases List.mem_append.mp hen with h1 | h2
      · have hfil : (processed ++ [r]).filter (fun rr => rr.id == en.id) =
            processed.filter (fun rr => rr.id == en.id) := by
          rw [List.filter_append]
          have hne : (r.id == en.id) = false := by
            simp only [beq_eq_false_iff_ne, ne_eq]
            intro hh
            exact hnotin en h1 hh.symm
          have : [r].filter (fun rr => rr.id == en.id) = [] := by
            simp [hne]
          rw [this, List.append_nil]
        rw [hfil]
        exact hasg en h1
      · simp only [List.mem_singleton] at h2
        subst h2
        have hfilp : processed.filter
            (fun rr => rr.id == (AvailEntry.mk r.id r.name (evList r)).id) = [] := by
          rw [List.filter_eq_nil_iff]
          intro rr hrr hb
          apply hrid_not
          have : rr.id = r.id := by simpa using hb
          rw [← this]
          exact List.mem_map_of_mem _ hrr
        rw [List.filter_append, hfilp, List.nil_append]
        show evList r = List.filterMap (fun rr => rr.event)
          (List.filter (fun rr => rr.id == r.id) [r])
        have : [r].filter (fun rr => rr.id == r.id) = [r] := by simp
        rw [this, filterMap_event_single]

/-- The grouping invariant holds after consuming any row list. -/
theorem availFold_spec :
    ∀ (rows processed : List AvailRow) (acc : List AvailEntry),
      AvailInv processed acc →
      AvailInv (processed ++ rows) (rows.foldl availInsertRow acc) := by
  intro rows
  induction rows with
  | nil =>
      intro processed acc h
      simpa using h
  | cons r rest ih =>
      intro processed acc h
      rw [List.foldl_cons]
      have h3 := ih (processed ++ [r]) (availInsertRow acc r) (availInsertRow_spec processed acc r h)
      rw [List.append_assoc] at h3
      simpa using h3

/-! ## Characterization of the availability join rows -/

/-- The join rows one active crew member contributes. -/
def memberBlock (s : Store) (sd ed : ℕ) (cm : CrewMember) : List AvailRow :=
  if (s.crew_assignments.filter (fun ca => ca.crew_member_id == cm.id)).isEmpty then
    [⟨cm.id, cm.name, none⟩]
  else
    (s.crew_assignments.filter (fun ca => ca.crew_member_id == cm.id)).flatMap (fun ca =>
      if (s.events.filter (fun e =>
          e.id == ca.event_id && decide (sd ≤ e.event_date) &&
            decide (e.event_date ≤ ed))).isEmpty then
        [⟨cm.id, cm.name, none⟩]
      else
        (s.events.filter (fun e =>
          e.id == ca.event_id && decide (sd ≤ e.event_date) &&
            decide (e.event_date ≤ ed))).map
          (fun e => ⟨cm.id, cm.name, some (e.event_date, e.name)⟩))

/-- The join is the concatenation of the per-member blocks. -/
theorem availJoinRows_eq (s : Store) (sd ed : ℕ) :
    availJoinRows s sd ed =
      (s.crew_members.filter (fun cm => cm.is_active)).flatMap (memberBlock s sd ed) := rfl

/-- The in-range (date, event name) pairs of one member's assignments: the
list the claim says the member's availability entry must carry. -/
def expectedAssignments (s : Store) (sd ed : ℕ) (cid : ℕ) : List (ℕ × String) :=
  (s.crew_assignments.filter (fun ca => ca.crew_member_id == cid)).flatMap (fun ca =>
    (s.events.filter (fun e =>
      e.id == ca.event_id && decide (sd ≤ e.event_date) && decide (e.event_date ≤ ed))).map
      (fun e => (e.event_date, e.name)))

/-- Every row of a member's block carries that member's id and name. -/
theorem memberBlock_fields (s : Store) (sd ed : ℕ) (cm : CrewMember) :
    ∀ r ∈ memberBlock s sd ed cm, r.id = cm.id ∧ r.name = cm.name := by
  intro r hr
  unfold memberBlock at hr
  by_cases hc : (s.crew_assignments.filter (fun ca => ca.crew_member_id == cm.id)).isEmpty = true
  · rw [if_pos hc] at hr
    simp only [List.mem_singleton] at hr
    subst hr
    exact ⟨rfl, rfl⟩
  · rw [if_neg hc] at hr
    rcases List.mem_flatMap.mp hr with ⟨ca, _, hin⟩
    by_cases he : (s.events.filter (fun e =>
        e.id == ca.event_id && decide (sd ≤ e.event_date) &&
          decide (e.event_date ≤ ed))).isEmpty = true
    · rw [if_pos he] at hin
      simp only [List.mem_singleton] at hin
      subst hin
      exact ⟨rfl, rfl⟩
    · rw [if_neg he] at hin
      rcases List.mem_map.mp hin with ⟨e, _, hrow⟩
      subst hrow
      exact ⟨rfl, rfl⟩

/-- A member's block is never empty (a member with no in-range event still
contributes a `NULL`-event row). -/
theorem memberBlock_ne_nil (s : Store) (sd ed : ℕ) (cm : CrewMember) :
    memberBlock s sd ed cm ≠ [] := by
  unfold memberBlock
  by_cases hc : (s.crew_assignments.filter (fun ca => ca.crew_member_id == cm.id)).isEmpty = true
  · rw [if_pos hc]
    simp
  · rw [if_neg hc]
    intro hnil
    rw [List.flatMap_eq_nil_iff] at hnil
    rcases List.isEmpty_eq_false_iff_exists_mem.mp (by
      cases hq : (s.crew_assignments.filter (fun ca => ca.crew_member_id == cm.id)).isEmpty with
      | false => rfl
      | true => exact absurd hq hc) with ⟨ca, hca⟩
    have := hnil ca hca
    by_cases he : (s.events.filter (fun e =>
        e.id == ca.event_id && decide (sd ≤ e.event_date) &&
          decide (e.event_date ≤ ed))).isEmpty = true
    · rw [if_pos he] at this
      simp at this
    · rw [if_neg he] at this
      rw [List.map_eq_nil_iff] at this
      rw [this] at he
      simp at he

/-- The event projection of a member's block is exactly the expected
(date, name) list. -/
theorem memberBlock_filterMap (s : Store) (sd ed : ℕ) (cm : CrewMember) :
    (memberBlock s sd ed cm).filterMap (fun r => r.event) =
      expectedAssignments s sd ed cm.id := by
  unfold memberBlock expectedAssignments
  by_cases hc : (s.crew_assignments.filter (fun ca => ca.crew_member_id == cm.id)).isEmpty = true
  · rw [if_pos hc]
    rw [List.isEmpty_iff] at hc
    rw [hc]
    simp
  · rw [if_neg hc]
    rw [List.filterMap_flatMap]
    have hfun : (fun ca : CrewAssignment =>
        List.filterMap (fun r : AvailRow => r.event)
          (if (s.events.filter (fun e =>
              e.id == ca.event_id && decide (sd ≤ e.event_date) &&
                decide (e.event_date ≤ ed))).isEmpty then
            [(⟨cm.id, cm.name, none⟩ : AvailRow)]
          else
            (s.events.filter (fun e =>
              e.id == ca.event_id && decide (sd ≤ e.event_date) &&
                decide (e.event_date ≤ ed))).map
              (fun e => (⟨cm.id, cm.name, some (e.event_date, e.name)⟩ : AvailRow)))) =
        (fun ca : CrewAssignment =>
          (s.events.filter (fun e =>
            e.id == ca.event_id && decide (sd ≤ e.event_date) &&
              decide (e.event_date ≤ ed))).map (fun e => (e.event_date, e.name))) := by
      funext ca
      by_cases he : (s.events.filter (fun e =>
          e.id == ca.event_id && decide (sd ≤ e.event_date) &&
            decide (e.event_date ≤ ed))).isEmpty = true
      · rw [if_pos he]
        rw [List.isEmpty_iff] at he
        rw [he]
        simp
      · rw [if_neg he]
        rw [List.filterMap_map]
        rw [show ((fun r : AvailRow => r.event) ∘
            (fun e : Event => (⟨cm.id, cm.name, some (e.event_date, e.name)⟩ : AvailRow))) =
            (some ∘ fun e : Event => (e.event_date, e.name)) from rfl]
        rw [List.filterMap_eq_map]
    rw [hfun]

/-- Flat-mapping a guarded function is flat-mapping over the filtered
list. -/
theorem flatMap_ite_filter {α β : Type} (l : List α) (q : α → Bool) (f : α → List β) :
    (l.flatMap (fun x => if q x then f x else [])) = (l.filter q).flatMap f := by
  induction l with
  | nil => simp
  | cons a t ih =>
      by_cases h : q a = true
      · simp [h, ih]
      · rw [Bool.not_eq_true] at h
        simp [h, ih]

/-- With distinct ids, filtering a member list on one present id keeps
exactly that member. -/
theorem filter_members_single :
    ∀ (l : List CrewMember), ((l.map (fun m => m.id)).Nodup) →
      ∀ cm ∈ l, l.filter (fun m => m.id == cm.id) = [cm] := by
  intro l
  induction l with
  | nil =>
      intro _ cm hcm
      exact absurd hcm (List.not_mem_nil cm)
  | cons a t ih =>
      intro hnd cm hcm
      rw [List.map_cons] at hnd
      have hnd2 := List.nodup_cons.mp hnd
      rcases List.mem_cons.mp hcm with h1 | h2
      · subst h1
        have hts : t.filter (fun m => m.id == cm.id) = [] := by
          rw [List.filter_eq_nil_iff]
          intro m hm hb
          apply hnd2.1
          have : m.id = cm.id := by simpa using hb
          rw [← this]
          exact List.mem_map_of_mem _ hm
        simp [List.filter_cons, hts]
      · have hne : (a.id == cm.id) = false := by
          simp only [beq_eq_false_iff_ne, ne_eq]
          intro hh
          apply hnd2.1
          rw [hh]
          exact List.mem_map_of_mem _ h2
        rw [List.filter_cons]
        rw [hne]
        simp only [Bool.false_eq_true, if_false]
        exact ih hnd2.2 cm h2

/-- Restricting the join rows to one active member's id yields exactly that
member's block. -/
theorem availJoinRows_filter (s : Store) (sd ed : ℕ)
    (hnd : (s.crew_members.map (fun m => m.id)).Nodup)
    (cm : CrewMember) (hcm : cm ∈ s.crew_members) (hact : cm.is_active = true) :
    (availJoinRows s sd ed).filter (fun r => r.id == cm.id) = memberBlock s sd ed cm := by
  rw [availJoinRows_eq, List.filter_flatMap]
  have hfun : (fun m : CrewMember =>
      (memberBlock s sd ed m).filter (fun r => r.id == cm.id)) =
      (fun m : CrewMember =>
        if m.id == cm.id then memberBlock s sd ed m else []) := by
    funext m
    by_cases hb : (m.id == cm.id) = true
    · rw [hb]
      simp only [if_true]
      rw [List.filter_eq_self]
      intro r hr
      have := (memberBlock_fields s sd ed m r hr).1
      rw [this]
      exact hb
    · rw [Bool.not_eq_true] at hb
      rw [hb]
      simp only [Bool.false_eq_true, if_false]
      rw [List.filter_eq_nil_iff]
      intro r hr hrb
      have := (memberBlock_fields s sd ed m r hr).1
      rw [this] at hrb
      rw [hrb] at hb
      exact Bool.noConfusion hb
  rw [hfun, flatMap_ite_filter]
  have hnda : ((s.crew_members.filter (fun m => m.is_active)).map (fun m => m.id)).Nodup := by
    apply List.Nodup.sublist ?_ hnd
    exact List.Sublist.map _ (List.filter_sublist _)
  have hmema : cm ∈ s.crew_members.filter (fun m => m.is_active) :=
    List.mem_filter.mpr ⟨hcm, hact⟩
  rw [filter_members_single _ hnda cm hmema]
  simp

/-- Every join row stems from an active member, carrying its id and
name. -/
theorem availJoinRows_src (s : Store) (sd ed : ℕ) :
    ∀ r ∈ availJoinRows s sd ed, ∃ cm ∈ s.crew_members,
      cm.is_active = true ∧ r.id = cm.id ∧ r.name = cm.name := by
  intro r hr
  rw [availJoinRows_eq] at hr
  rcases List.mem_flatMap.mp hr with ⟨cm, hcm, hblock⟩
  have hf := List.mem_filter.mp hcm
  obtain ⟨hid, hname⟩ := memberBlock_fields s sd ed cm r hblock
  exact ⟨cm, hf.1, hf.2, hid, hname⟩

/-- Every active member shows up among the join row ids. -/
theorem availJoinRows_mem_id (s : Store) (sd ed : ℕ)
    (cm : CrewMember) (hcm : cm ∈ s.crew_members) (hact : cm.is_active = true) :
    cm.id ∈ (availJoinRows s sd ed).map (fun r => r.id) := by
  rw [availJoinRows_eq]
  cases hb : memberBlock s sd ed cm with
  | nil => exact absurd hb (memberBlock_ne_nil s sd ed cm)
  | cons r rest =>
      have hrmem : r ∈ memberBlock s sd ed cm := by
        rw [hb]
        exact List.mem_cons_self _ _
      have hid := (memberBlock_fields s sd ed cm r hrmem).1
      rw [← hid]
      apply List.mem_map_of_mem
      exact List.mem_flatMap.mpr ⟨cm, List.mem_filter.mpr ⟨hcm, hact⟩, hrmem⟩

/-- The collation is irreflexive. -/
theorem charListLt_irrefl (l : List Char) : charListLt l l = false := by
  unfold charListLt
  simp

/-- Claim C8: for every date range, `crewAvailability` has one entry per
active crew member (members with nothing in range appear with an empty
list); each entry's assignment list contains exactly the (date, event
name) pairs of that member's in-range assignments, in ascending date
order; and no one else appears. -/
theorem crewAvailability_spec :
    ∀ (s : Store) (sd ed : ℕ),
      (s.crew_members.map (fun m => m.id)).Nodup →
      (∀ cm ∈ s.crew_members, cm.is_active = true →
        ∃ en ∈ crewAvailability s sd ed,
          en.id = cm.id ∧ en.name = cm.name ∧
          en.assignments.Perm (expectedAssignments s sd ed cm.id) ∧
          List.Pairwise (fun a b : ℕ × String => a.1 ≤ b.1) en.assignments) ∧
      (∀ en ∈ crewAvailability s sd ed, ∃ cm ∈ s.crew_members,
        cm.is_active = true ∧ cm.id = en.id) ∧
      ((crewAvailability s sd ed).map (fun en => en.id)).Nodup := by
  intro s sd ed hnd
  have h0 : AvailInv [] [] := by
    refine ⟨by simp, by simp, ?_, by simp⟩
    intro k
    simp
  have hinv : AvailInv
      ((availJoinRows s sd ed).insertionSort (fun x y => availLe x y = true))
      (crewAvailability s sd ed) := by
    unfold crewAvailability
    have h1 := availFold_spec
      ((availJoinRows s sd ed).insertionSort (fun x y => availLe x y = true)) [] [] h0
    simpa using h1
  obtain ⟨hndout, hsrc, hiff, hasg⟩ := hinv
  have hperm : ((availJoinRows s sd ed).insertionSort
      (fun x y => availLe x y = true)).Perm (availJoinRows s sd ed) :=
    List.perm_insertionSort _ _
  have hsorted : List.Pairwise (fun x y => availLe x y = true)
      ((availJoinRows s sd ed).insertionSort (fun x y => availLe x y = true)) :=
    List.sorted_insertionSort _ _
  have hname_of_id : ∀ r ∈ availJoinRows s sd ed, ∀ cm ∈ s.crew_members,
      r.id = cm.id → r.name = cm.name := by
    intro r hr cm hcm hid
    obtain ⟨cm2, hcm2, _, hid2, hname2⟩ := availJoinRows_src s sd ed r hr
    have : cm2 = cm := List.inj_on_of_nodup_map hnd hcm2 hcm (by rw [← hid2, hid])
    rw [hname2, this]
  refine ⟨?_, ?_, hndout⟩
  · intro cm hcm hact
    have hidmem : cm.id ∈ ((availJoinRows s sd ed).insertionSort
        (fun x y => availLe x y = true)).map (fun r => r.id) :=
      ((hperm.map (fun r => r.id)).mem_iff).mpr (availJoinRows_mem_id s sd ed cm hcm hact)
    obtain ⟨en, henmem, henid⟩ := (hiff cm.id).mpr hidmem
    refine ⟨en, henmem, henid, ?_, ?_, ?_⟩
    · obtain ⟨rr, hrr, hrid, hrname⟩ := hsrc en henmem
      rw [← hrname]
      exact hname_of_id rr (hperm.mem_iff.mp hrr) cm hcm (by rw [hrid, henid])
    · rw [hasg en henmem]
      have h2 := hperm.filter (fun r => r.id == en.id)
      have h3 : (availJoinRows s sd ed).filter (fun r => r.id == en.id) =
          memberBlock s sd ed cm := by
        rw [henid]
        exact availJoinRows_filter s sd ed hnd cm hcm hact
      have h4 := List.Perm.filterMap (fun r => r.event) h2
      rw [h3, memberBlock_filterMap] at h4
      exact h4
    · have hsub : (((availJoinRows s sd ed).insertionSort
          (fun x y => availLe x y = true)).filter (fun r => r.id == en.id)).Sublist
          ((availJoinRows s sd ed).insertionSort (fun x y => availLe x y = true)) :=
        List.filter_sublist _
      have hpair : List.Pairwise (fun x y => availLe x y = true)
          (((availJoinRows s sd ed).insertionSort
            (fun x y => availLe x y = true)).filter (fun r => r.id == en.id)) :=
        List.Pairwise.sublist hsub hsorted
      have hnm : ∀ r ∈ ((availJoinRows s sd ed).insertionSort
          (fun x y => availLe x y = true)).filter (fun r => r.id == en.id),
          r.name = cm.name := by
        intro r hr
        have hrs := List.mem_of_mem_filter hr
        have hrid : (r.id == en.id) = true := (List.mem_filter.mp hr).2
        have hride : r.id = cm.id := by
          rw [← henid]
          simpa using hrid
        exact hname_of_id r (hperm.mem_iff.mp hrs) cm hcm hride
      have hpair2 : List.Pairwise (fun x y : AvailRow =>
          ∀ ev ∈ x.event, ∀ ev2 ∈ y.event, ev.1 ≤ ev2.1)
          (((availJoinRows s sd ed).insertionSort
            (fun x y => availLe x y = true)).filter (fun r => r.id == en.id)) := by
        apply List.Pairwise.imp_of_mem ?_ hpair
        intro a b ha hb hab ev hev ev2 hev2
        have hnames : a.name = b.name := by rw [hnm a ha, hnm b hb]
        have hlt1 : charListLt a.name.toList b.name.toList = false := by
          rw [hnames]
          exact charListLt_irrefl _
        have hlt2 : charListLt b.name.toList a.name.toList = false := by
          rw [hnames]
          exact charListLt_irrefl _
        rw [availLe_of_names a b hlt1 hlt2] at hab
        have hae : a.event = some ev := hev
        have hbe : b.event = some ev2 := hev2
        rw [show dateKey a.event = (0, ev.1) from by rw [hae]; rfl,
          show dateKey b.event = (0, ev2.1) from by rw [hbe]; rfl] at hab
        simpa using hab
      rw [hasg en henmem]
      exact List.Pairwise.filterMap (fun r => r.event)
        (fun a b hab ev hev ev2 hev2 => hab ev hev ev2 hev2) hpair2
  · intro en henmem
    obtain ⟨rr, hrr, hrid, _⟩ := hsrc en henmem
    obtain ⟨cm2, hcm2, hact2, hid2, _⟩ :=
      availJoinRows_src s sd ed rr (hperm.mem_iff.mp hrr)
    exact ⟨cm2, hcm2, hact2, by rw [← hid2, hrid]⟩

/-- Store for the C8 witness: Ann has one in-range assignment, Bob has
none at all. -/
def C8store : Store :=
  { events := [⟨1, ("Gala"), 5, none, ("scheduled")⟩]
    crew_members := [⟨2, ("Ann"), some 20, true⟩, ⟨3, ("Bob"), none, true⟩]
    positions := []
    equipment := []
    crew_assignments := [⟨7, 1, 2, none, none, none, none, some ("pending"), none, 9⟩]
    equipment_assignments := [] }

/-- Witness for C8: in the concrete store the assignment-free member Bob
still gets an entry whose list matches his (empty) expected list, and the
entry ids are distinct. -/
theorem crewAvailability_spec_witness :
    (∃ en ∈ crewAvailability C8store 0 10, en.id = 3 ∧ en.name = ("Bob") ∧
      en.assignments.Perm (expectedAssignments C8store 0 10 3) ∧
      List.Pairwise (fun a b : ℕ × String => a.1 ≤ b.1) en.assignments) ∧
    ((crewAvailability C8store 0 10).map (fun en => en.id)).Nodup :=
  have h := crewAvailability_spec C8store 0 10 (by decide)
  ⟨h.1 ⟨3, ("Bob"), none, true⟩ (by decide) (by decide), h.2.2⟩
